import Mathlib

/-!
Shallow embedding of `src/idom/core/layout.py` (the Layout core of the
reactpy/idom repository) together with theorems checking the natural-language
specification against it.

Python dictionaries are embedded as insertion-ordered association lists with
Python `dict` semantics (`pyInsert` replaces in place or appends, `pyRemove`
deletes a key, iteration follows list order).  Mutable Python objects whose
identity matters (the per-element `model` dict, the `attributes` dicts of raw
models) live in explicit heaps inside the layout state and are referred to by
address (`Nat` index).  Asynchronous code is embedded as explicit state
passing; fallible operations (`del` on a missing key, out-of-fuel recursion)
return `Option`.
-/

namespace Idom

/-! ### Python dict operations over association lists -/

variable {κ : Type} {ν : Type} [DecidableEq κ]

/-- `d.get(k)` / `d[k]` lookup on a Python dict. -/
def pyLookup : List (κ × ν) → κ → Option ν
  | [], _ => none
  | (k', v) :: rest, k => if k' = k then some v else pyLookup rest k

/-- `d[k] = v` on a Python dict: an existing key keeps its position and gets
the new value, a new key is appended at the end. -/
def pyInsert : List (κ × ν) → κ → ν → List (κ × ν)
  | [], k, v => [(k, v)]
  | (k', v') :: rest, k, v =>
    if k' = k then (k, v) :: rest else (k', v') :: pyInsert rest k v

/-- `del d[k]` / `d.pop(k)` on a Python dict: removes the entry for `k`
(Python dict keys are unique; removing every occurrence coincides with
removing the one entry on any list that, like every dict arising here, has no
duplicate keys). -/
def pyRemove : List (κ × ν) → κ → List (κ × ν)
  | [], _ => []
  | (k', v') :: rest, k =>
    if k' = k then pyRemove rest k else (k', v') :: pyRemove rest k

/-- `d.update(entries)` on a Python dict. -/
def pyUpdate (d : List (κ × ν)) (entries : List (κ × ν)) : List (κ × ν) :=
  entries.foldl (fun acc p => pyInsert acc p.1 p.2) d

/-- `list(d.keys())` of a Python dict. -/
def pyKeys (d : List (κ × ν)) : List κ :=
  d.map (·.1)

/-- Replace the value stored under `k` by `f` applied to it, if `k` is
present; used to embed Python's in-place mutation of an object that is (in
the non-degenerate case) the very entry stored in the table. -/
def pyModify : List (κ × ν) → κ → (ν → ν) → List (κ × ν)
  | [], _, _ => []
  | (k', v') :: rest, k, f =>
    if k' = k then (k', f v') :: rest else (k', v') :: pyModify rest k f

/-! ### Data model

`EventHandler` (from `idom.core.events`, whose source is not under `src/`) is
modelled from the spec: an addressable callable bundle `\x7b id, callbacks,
parameter-capture spec \x7d` whose `serialize()` returns the descriptor
`\x7btarget: id\x7d`.  Handler ids are `Nat` tokens; fresh handlers allocate from a
counter in the layout state (the source uses uuids, whose non-collision is
mirrored by freshness hypotheses in theorems).  Callbacks are opaque values
of a type parameter `Cb`. -/

/-- Modelled from the spec: `EventHandler` of `idom.core.events` (not under
`src/`): a stable id plus an ordered list of callbacks. -/
structure EventHandler (Cb : Type) where
  id : Nat
  callbacks : List Cb
deriving DecidableEq

/-- Modelled from the spec: `EventHandler.serialize()` returns the descriptor
embedded in model output, minimally `\x7btarget: id\x7d`. -/
structure Descriptor where
  target : Nat
deriving DecidableEq

/-- A value stored in a raw model's `attributes` dict, tagged by how
`callable(v)` / `isinstance(v, EventHandler)` classify it. -/
inductive AttrValue (Cb : Type) : Type
  | handler (h : EventHandler Cb)
  | cb (f : Cb)
  | plain (s : String)
deriving DecidableEq

/-- `callable(v)` for an attribute value. -/
def AttrValue.callable {Cb : Type} : AttrValue Cb → Bool
  | .plain _ => false
  | _ => true

/-- The id of an attribute value that is already an `EventHandler` object
(`isinstance(v, EventHandler)`), `none` otherwise. -/
def AttrValue.handlerId {Cb : Type} : AttrValue Cb → Option Nat
  | .handler h => some h.id
  | _ => none

mutual
/-- An element: a stable id and (the result of) its async `render()`.  Render
results are static here; suspension behaviour of the render generator is
modelled separately by `render_with_life_cycle_hook`. -/
inductive Element (Cb : Type) : Type
  | mk (id : String) (renders : RawResult Cb)

/-- What `element.render()` returns: a model dict or another element. -/
inductive RawResult (Cb : Type) : Type
  | model (m : RawModel Cb)
  | elem (e : Element Cb)

/-- A raw (host-produced) model dict.  `attributes` is the address of a
mutable dict in the layout's attribute heap (the host's own dict object);
pass-through keys are not modelled. -/
inductive RawModel (Cb : Type) : Type
  | mk (tagName : Option String) (attributes : Option Nat)
      (eventHandlers : Option (List (String × EventHandler Cb)))
      (children : Option (RawChildren Cb))

/-- The raw `children` value: a single child or a list/tuple of children. -/
inductive RawChildren (Cb : Type) : Type
  | one (c : RawChild Cb)
  | many (cs : List (RawChild Cb))

/-- A raw child: a mapping, an element, or a primitive coerced to `str`. -/
inductive RawChild (Cb : Type) : Type
  | map (m : RawModel Cb)
  | elem (e : Element Cb)
  | text (s : String)
end

def Element.id {Cb : Type} : Element Cb → String
  | .mk i _ => i

def Element.renders {Cb : Type} : Element Cb → RawResult Cb
  | .mk _ r => r

def RawModel.tagName {Cb : Type} : RawModel Cb → Option String
  | .mk t _ _ _ => t

def RawModel.attributes {Cb : Type} : RawModel Cb → Option Nat
  | .mk _ a _ _ => a

def RawModel.eventHandlers {Cb : Type} :
    RawModel Cb → Option (List (String × EventHandler Cb))
  | .mk _ _ e _ => e

def RawModel.children {Cb : Type} : RawModel Cb → Option (RawChildren Cb)
  | .mk _ _ _ c => c

mutual
/-- A resolved model dict (what `_render_model` produces): `eventHandlers`
replaced by the serialized descriptor map, `attributes` still the address of
the host's own attributes dict (the shallow copy keeps the reference). -/
inductive RModel : Type
  | mk (tagName : Option String) (attributes : Option Nat)
      (eventHandlers : List (String × Descriptor))
      (children : Option (List RChild))

/-- A resolved child: a coerced string, a nested resolved mapping, or a
reference to a child element's state model dict (the shared dict object
returned by `_render_element`). -/
inductive RChild : Type
  | text (s : String)
  | node (m : RModel)
  | elemRef (model : Nat)
end

def RModel.tagName : RModel → Option String
  | .mk t _ _ _ => t

def RModel.attributes : RModel → Option Nat
  | .mk _ a _ _ => a

def RModel.eventHandlers : RModel → List (String × Descriptor)
  | .mk _ _ e _ => e

def RModel.children : RModel → Option (List RChild)
  | .mk _ _ _ c => c

/-- The empty dict `\x7b\x7d` allocated for a fresh element state's `model`. -/
def RModel.empty : RModel := .mk none none [] none

/-- A lifecycle event observed through an element state's `LifeCycleHook`
(`idom.core.hooks` is not under `src/`; modelled from the spec as
invariant-preserving lifecycle callbacks, instrumented here as an event log).
Each event carries the element id and the identity token of the hook object
on which the callback fired. -/
inductive TraceEv : Type
  | willRender (id : String) (hook : Nat)
  | didRender (id : String) (hook : Nat)
  | willUnmount (id : String) (hook : Nat)
deriving DecidableEq

/-- `ElementState` (layout.py line 108): per mounted element bookkeeping.
`model` is the address of the state's model dict in the model heap (the dict
object's identity); `life_cycle_hook` is the identity token of the
`LifeCycleHook` object allocated at state creation. -/
structure ElementState (Cb : Type) where
  model : Nat
  element_obj : Element Cb
  event_handler_ids : List Nat
  child_elements_ids : List String
  life_cycle_hook : Nat

/-- The mutable state of a `Layout`: the `_element_states` table, the global
`_event_handlers` table, the two object heaps, the fresh-id counters for
handler ids and hook identities, and the instrumentation trace. -/
structure LayoutState (Cb : Type) where
  element_states : List (String × ElementState Cb)
  event_handlers : List (Nat × EventHandler Cb)
  attrHeap : List (List (String × AttrValue Cb))
  modelHeap : List RModel
  nextHandlerId : Nat
  nextHookId : Nat
  trace : List TraceEv

/-! ### Layout operations (layout.py lines 116-265)

All functions thread the `LayoutState`; recursion through the element-state
table (`_unmount_element_state` and friends) and through raw trees is bounded
by a fuel parameter — `none` means the fuel ran out or a Python `KeyError`
(`del` on / lookup of a missing key) occurred. -/

variable {Cb : Type}

/-- `Layout._create_element_state` (line 186): empty model dict (freshly
allocated), the element object, empty handler-id set, empty child list, and a
fresh `LifeCycleHook`. -/
def create_element_state (s : LayoutState Cb) (e : Element Cb) : LayoutState Cb :=
  let addr := s.modelHeap.length
  { s with
    modelHeap := s.modelHeap ++ [RModel.empty]
    element_states :=
      pyInsert s.element_states e.id ⟨addr, e, [], [], s.nextHookId⟩
    nextHookId := s.nextHookId + 1 }

/-- The loop of `Layout._clear_element_state_event_handlers` (lines 257-259):
`del self._event_handlers[handler_id]` for each id; a missing key is a
`KeyError` (`none`). -/
def delHandlers : List (Nat × EventHandler Cb) → List Nat →
    Option (List (Nat × EventHandler Cb))
  | tbl, [] => some tbl
  | tbl, hid :: rest =>
    match pyLookup tbl hid with
    | none => none
    | some _ => delHandlers (pyRemove tbl hid) rest

/-- `Layout._clear_element_state_event_handlers` (line 257): drop every id in
the state's `event_handler_ids` from the global table, then clear the set on
the state object (which, in the non-degenerate case, is the table entry). -/
def clear_element_state_event_handlers (s : LayoutState Cb)
    (st : ElementState Cb) : Option (LayoutState Cb) :=
  (delHandlers s.event_handlers st.event_handler_ids).bind fun tbl =>
    some { s with
      event_handlers := tbl
      element_states := pyModify s.element_states st.element_obj.id
        (fun v => { v with event_handler_ids := [] }) }

mutual
/-- `Layout._unmount_element_state` (line 251): fire `element_will_unmount`,
clear the state's handlers from the global table, recursively unmount its
children, then `del self._element_states[id]`. -/
def unmount_element_state : Nat → LayoutState Cb → ElementState Cb →
    Option (LayoutState Cb)
  | 0, _, _ => none
  | n + 1, s, st =>
    let s1 := { s with
      trace := s.trace ++ [.willUnmount st.element_obj.id st.life_cycle_hook] }
    (clear_element_state_event_handlers s1 st).bind fun s2 =>
    (unmount_element_state_children n s2 st).bind fun s3 =>
    (pyLookup s3.element_states st.element_obj.id).bind fun _ =>
    some { s3 with
      element_states := pyRemove s3.element_states st.element_obj.id }

/-- `Layout._unmount_element_state_children` (line 262): unmount every child
id recorded on the state, then clear the list on the state object. -/
def unmount_element_state_children : Nat → LayoutState Cb → ElementState Cb →
    Option (LayoutState Cb)
  | 0, _, _ => none
  | n + 1, s, st =>
    (unmount_children n s st.child_elements_ids).bind fun s' =>
    some { s' with
      element_states := pyModify s'.element_states st.element_obj.id
        (fun v => { v with child_elements_ids := [] }) }

/-- The loop of `_unmount_element_state_children`:
`self._unmount_element_state(self._element_states[e_id])` for each child id
(a missing entry is a `KeyError`). -/
def unmount_children : Nat → LayoutState Cb → List String →
    Option (LayoutState Cb)
  | _, s, [] => some s
  | 0, _, _ :: _ => none
  | n + 1, s, cid :: rest =>
    (pyLookup s.element_states cid).bind fun stc =>
    (unmount_element_state n s stc).bind fun s' =>
    unmount_children n s' rest
end

/-- The attribute scan of `Layout._render_model_event_handlers` (lines
229-238): iterate over a snapshot `list(attrs.items())`; a callable that is
not an `EventHandler` is popped and wrapped in a fresh handler
(`h = handlers[k] = EventHandler(); h.add(attrs.pop(k))`), a callable that is
an `EventHandler` is popped and stored under the same key.  Returns the new
fresh-id counter, the handlers dict, and the mutated attributes dict. -/
def scanAttrs : Nat → List (String × EventHandler Cb) →
    List (String × AttrValue Cb) → List (String × AttrValue Cb) →
    Nat × List (String × EventHandler Cb) × List (String × AttrValue Cb)
  | nid, handlers, attrs, [] => (nid, handlers, attrs)
  | nid, handlers, attrs, (k, v) :: items =>
    match v with
    | .plain _ => scanAttrs nid handlers attrs items
    | .cb f =>
      scanAttrs (nid + 1) (pyInsert handlers k ⟨nid, [f]⟩)
        (pyRemove attrs k) items
    | .handler h =>
      scanAttrs nid (pyInsert handlers k h) (pyRemove attrs k) items

/-- Lines 226-228: `handlers = \x7b\x7d; if "eventHandlers" in model:
handlers.update(model["eventHandlers"])` — the handler map seeded from the
raw model's `eventHandlers` entry, empty when the key is absent. -/
def modelHandlers (m : RawModel Cb) : List (String × EventHandler Cb) :=
  match m.eventHandlers with
  | some ehs => pyUpdate [] ehs
  | none => []

/-- `Layout._render_model_event_handlers` (lines 223-245): collect handlers
from `model["eventHandlers"]`, move callable attributes into the handler map
(attribute-derived handlers overwrite), then set
`element_state.event_handler_ids` to the keys of `\x7bh.id: h\x7d` (note the
`clear()` at line 241), update the global table with it, and return the
serialized descriptor map. -/
def render_model_event_handlers (s : LayoutState Cb) (eid : String)
    (m : RawModel Cb) :
    Option (LayoutState Cb × List (String × Descriptor)) :=
  let handlers0 : List (String × EventHandler Cb) := modelHandlers m
  let scanned : Option (LayoutState Cb × List (String × EventHandler Cb)) :=
    match m.attributes with
    | none => some (s, handlers0)
    | some a =>
      (s.attrHeap.get? a).map fun attrs =>
        let r := scanAttrs s.nextHandlerId handlers0 attrs attrs
        ({ s with attrHeap := s.attrHeap.set a r.2.2, nextHandlerId := r.1 },
          r.2.1)
  scanned.bind fun q =>
    let by_id : List (Nat × EventHandler Cb) :=
      q.2.foldl (fun d p => pyInsert d p.2.id p.2) []
    some ({ q.1 with
        element_states := pyModify q.1.element_states eid
          (fun v => { v with event_handler_ids := pyKeys by_id })
        event_handlers := pyUpdate q.1.event_handlers by_id },
      q.2.map (fun p => (p.1, Descriptor.mk p.2.id)))

/-- `children if isinstance(children, (list, tuple)) else [children]`
(line 213). -/
def normalizeChildren : RawChildren Cb → List (RawChild Cb)
  | .one c => [c]
  | .many cs => cs

/-- Lines 173-174: a raw result that is itself an element is rewritten as
`\x7btagName: "div", children: [element]\x7d`. -/
def rawModelOf (e : Element Cb) : RawModel Cb :=
  match e.renders with
  | .model m => m
  | .elem c => RawModel.mk (some "div") none none (some (.many [.elem c]))

mutual
/-- `Layout._render_element` (lines 159-184): create the state on first
encounter, fire `element_will_render`, clear the state's handlers, unmount
its children, obtain the raw model (wrapping a bare element result in a
`div`), resolve it, and replace the contents of the state's model dict in
place (`clear()` + `update(...)`).  Returns the state's model dict (its
address), so models are shared between `ElementState` objects.  The
hook-stack discipline of `_render_with_life_cycle_hook` is modelled
separately by `render_with_life_cycle_hook`. -/
def render_element : Nat → LayoutState Cb → Element Cb →
    Option (LayoutState Cb × Nat)
  | 0, _, _ => none
  | n + 1, s, e =>
    let s0 := if (pyLookup s.element_states e.id).isSome then s
      else create_element_state s e
    (pyLookup s0.element_states e.id).bind fun st =>
    let s1 := { s0 with
      trace := s0.trace ++ [.willRender e.id st.life_cycle_hook] }
    (clear_element_state_event_handlers s1 st).bind fun s2 =>
    (unmount_element_state_children n s2 st).bind fun s3 =>
    (render_model n s3 e.id (rawModelOf e)).bind fun p =>
    some ({ p.1 with
        modelHeap := p.1.modelHeap.set st.model p.2
        trace := p.1.trace ++ [.didRender e.id st.life_cycle_hook] },
      st.model)

/-- `Layout._render_model` (lines 195-207): shallow-copy the model, replace
`eventHandlers` by the serialized map, resolve `children` when present. -/
def render_model : Nat → LayoutState Cb → String → RawModel Cb →
    Option (LayoutState Cb × RModel)
  | 0, _, _, _ => none
  | n + 1, s, eid, m =>
    (render_model_event_handlers s eid m).bind fun q =>
    match m.children with
    | none => some (q.1, RModel.mk m.tagName m.attributes q.2 none)
    | some cs =>
      (render_model_children n q.1 eid (normalizeChildren cs)).bind fun r =>
      some (r.1, RModel.mk m.tagName m.attributes q.2 (some r.2))

/-- `Layout._render_model_children` (lines 209-221): a mapping child recurses
into model resolution with the same element state, an element child is
appended to `child_elements_ids` and rendered via `_render_element`, anything
else is coerced to `str`. -/
def render_model_children : Nat → LayoutState Cb → String →
    List (RawChild Cb) → Option (LayoutState Cb × List RChild)
  | _, s, _, [] => some (s, [])
  | 0, _, _, _ :: _ => none
  | n + 1, s, eid, c :: rest =>
    match c with
    | .map m =>
      (render_model n s eid m).bind fun p =>
      (render_model_children n p.1 eid rest).bind fun r =>
      some (r.1, RChild.node p.2 :: r.2)
    | .elem ce =>
      let sA := { s with
        element_states := pyModify s.element_states eid
          (fun v =>
            { v with child_elements_ids := v.child_elements_ids ++ [ce.id] }) }
      (render_element n sA ce).bind fun p =>
      (render_model_children n p.1 eid rest).bind fun r =>
      some (r.1, RChild.elemRef p.2 :: r.2)
    | .text t =>
      (render_model_children n s eid rest).bind fun r =>
      some (r.1, RChild.text t :: r.2)
end

/-! ### Event dispatch (layout.py lines 47-51 and 129-136) -/

/-- `LayoutEvent` (line 47): the id of the target handler and the event data
(a list of values of some type `D`). -/
structure LayoutEvent (D : Type) where
  target : Nat
  data : List D

/-- Modelled from the spec: `EventHandler.invoke(data)` of `idom.core.events`
(not under `src/`) awaits each callback in order with `data`; a failure in a
callback propagates.  `call` interprets an opaque callback value. -/
def EventHandler.invoke {D E : Type} (call : Cb → List D → Except E Unit)
    (h : EventHandler Cb) (data : List D) : Except E Unit :=
  go h.callbacks
where
  go : List Cb → Except E Unit
    | [] => .ok ()
    | f :: rest =>
      match call f data with
      | .error err => .error err
      | .ok _ => go rest

/-- `Layout.trigger` (lines 129-136): look the target up in the global
handler table; a missing handler is silently ignored, otherwise the handler
is awaited with `event.data` and any failure propagates to the caller. -/
def Layout.trigger {D E : Type} (call : Cb → List D → Except E Unit)
    (s : LayoutState Cb) (ev : LayoutEvent D) : Except E (LayoutState Cb) :=
  match pyLookup s.event_handlers ev.target with
  | none => .ok s
  | some handler =>
    match EventHandler.invoke call handler ev.data with
    | .error err => .error err
    | .ok _ => .ok s

/-! ### FutureQueue (layout.py lines 290-329)

The asynchronous completion queue is embedded as a step system: `put`
registers a task (a value carrying the task's eventual outcome, revealed when
it completes), `complete i` models the event-loop finishing the `i`-th
pending task — the wrapper moves the settled future onto the done channel —
and `get` consumes the head of the done channel, returning the task's own
outcome (`return await future` re-raises a failure verbatim). -/

structure FutureQueue (α : Type) where
  pending : List α
  done : List α

/-- `FutureQueue.put` (line 298): register the awaitable; returns
immediately. -/
def FutureQueue.put {α : Type} (q : FutureQueue α) (t : α) : FutureQueue α :=
  { q with pending := q.pending ++ [t] }

/-- The completion hook of `FutureQueue.put`'s wrapper (lines 305-313): when
the `i`-th pending task finishes, remove it from `_pending` and append it to
the `_done` channel.  Completion order is arbitrary, hence the index. -/
def FutureQueue.complete {α : Type} (q : FutureQueue α) (i : Nat) :
    Option (FutureQueue α) :=
  match q.pending.get? i with
  | none => none
  | some t => some ⟨q.pending.eraseIdx i, q.done ++ [t]⟩

/-- `FutureQueue.get` (lines 318-321): suspend (`none`) while the done
channel is empty, otherwise consume exactly one settled future and return its
outcome. -/
def FutureQueue.get {E V : Type} (q : FutureQueue (Except E V)) :
    Option (Except E V × FutureQueue (Except E V)) :=
  match q.done with
  | [] => none
  | t :: rest => some (t, ⟨q.pending, rest⟩)

/-! ### Layout runtime: resources, render, update (layout.py lines 126-157)

The rendering queue holds pending per-element render tasks; completing task
`i` runs `render_element` against the current state and appends the returned
model dict to the done channel. -/

structure LayoutRuntime (Cb : Type) where
  st : LayoutState Cb
  root : Element Cb
  pendingRenders : List (Element Cb)
  doneRenders : List Nat

/-- Resource initialization of a `Layout`: `_element_states` starts as
`\x7broot.id: _create_element_state(root)\x7d` (line 152) and `_rendering_queue`
starts with `queue.put(self._render_element(self._root))` (line 145).
`attrHeap` holds the host's attribute dict objects and `nh0` is the initial
fresh-handler-id counter. -/
def Layout.start (root : Element Cb)
    (attrHeap : List (List (String × AttrValue Cb))) (nh0 : Nat) :
    LayoutRuntime Cb :=
  let s0 : LayoutState Cb := ⟨[], [], attrHeap, [], nh0, 0, []⟩
  { st := create_element_state s0 root
    root := root
    pendingRenders := [root]
    doneRenders := [] }

/-- `Layout.update` (line 126): enqueue a render task for the element. -/
def Layout.update (rt : LayoutRuntime Cb) (e : Element Cb) : LayoutRuntime Cb :=
  { rt with pendingRenders := rt.pendingRenders ++ [e] }

/-- The event loop completing the `i`-th pending render task with `fuel`:
runs `render_element` on the layout state, the wrapper moves the finished
task onto the done channel. -/
def Layout.completeRender (rt : LayoutRuntime Cb) (i fuel : Nat) :
    Option (LayoutRuntime Cb) :=
  match rt.pendingRenders.get? i with
  | none => none
  | some e =>
    match render_element fuel rt.st e with
    | none => none
    | some (s', addr) =>
      some { rt with
        st := s'
        pendingRenders := rt.pendingRenders.eraseIdx i
        doneRenders := rt.doneRenders ++ [addr] }

/-- `Layout.render` (lines 138-140): `await self._rendering_queue.get()`
(suspend — `none` — while no render has completed, otherwise consume exactly
one completion) and return `self._element_states[self._root.id].model`. -/
def Layout.render (rt : LayoutRuntime Cb) : Option (Nat × LayoutRuntime Cb) :=
  match rt.doneRenders with
  | [] => none
  | _ :: rest =>
    match pyLookup rt.st.element_states rt.root.id with
    | none => none
    | some st => some (st.model, { rt with doneRenders := rest })

/-! ### The hook driver `_render_with_life_cycle_hook` (layout.py lines
268-283)

The generator is modelled by the ordered sequence of observable events it
produces when the underlying user generator yields `n` times before raising
`StopIteration`.  Each loop iteration calls `set_current()`, then `next(gen)`
runs user code (`userRun`); a yielded value suspends the wrapper (`yieldOut`)
— the `finally` clause of the `try` surrounding the `yield` statement does
not run at this point — and only after the wrapper is resumed (`resumed`)
does the `try` block finish and the `finally` clause call `unset_current()`.
On `StopIteration` (or an exception thrown into the wrapper) the `finally`
clause runs immediately.  `set_current`/`unset_current` push/pop the hook on
the hook-runtime stack (modelled from the spec; `idom.core.hooks` is not
under `src/`). -/

inductive HookEv : Type
  | setCurrent (h : Nat)
  | unsetCurrent (h : Nat)
  | userRun
  | yieldOut
  | resumed
  | stopIteration
  | thrownIn
deriving DecidableEq

/-- The event sequence of `_render_with_life_cycle_hook` for an element whose
render generator yields `n` times and then returns. -/
def render_with_life_cycle_hook (h : Nat) : Nat → List HookEv
  | 0 => [.setCurrent h, .userRun, .stopIteration, .unsetCurrent h]
  | n + 1 =>
    [.setCurrent h, .userRun, .yieldOut, .resumed, .unsetCurrent h] ++
      render_with_life_cycle_hook h n

/-- The event sequence when, after `n` completed suspensions, an exception is
thrown into the wrapper at the resumption of the next suspension: the
exception propagates out of the `yield`, and the `finally` clause pops the
hook. -/
def render_with_life_cycle_hook_throw (h : Nat) : Nat → List HookEv
  | 0 => [.setCurrent h, .userRun, .yieldOut, .thrownIn, .unsetCurrent h]
  | n + 1 =>
    [.setCurrent h, .userRun, .yieldOut, .resumed, .unsetCurrent h] ++
      render_with_life_cycle_hook_throw h n

/-- Net number of times hook `h` is on the hook-runtime stack after the
events `t` (pushes minus pops, as an integer). -/
def hookDepth (h : Nat) (t : List HookEv) : Int :=
  (t.count (.setCurrent h) : Int) - (t.count (.unsetCurrent h) : Int)

/-- The stack depth of hook `h` at each suspension of the wrapper: for every
`yieldOut` event, the net depth of `h` at that point (the depth that persists
until the wrapper is resumed). -/
def suspendedDepths (h : Nat) : Int → List HookEv → List Int
  | _, [] => []
  | d, .setCurrent h' :: rest =>
    suspendedDepths h (if h' = h then d + 1 else d) rest
  | d, .unsetCurrent h' :: rest =>
    suspendedDepths h (if h' = h then d - 1 else d) rest
  | d, .yieldOut :: rest => d :: suspendedDepths h d rest
  | d, _ :: rest => suspendedDepths h d rest

/-- The stack depth of hook `h` at each execution of user code (each
`userRun` event). -/
def userRunDepths (h : Nat) : Int → List HookEv → List Int
  | _, [] => []
  | d, .setCurrent h' :: rest =>
    userRunDepths h (if h' = h then d + 1 else d) rest
  | d, .unsetCurrent h' :: rest =>
    userRunDepths h (if h' = h then d - 1 else d) rest
  | d, .userRun :: rest => d :: userRunDepths h d rest
  | d, _ :: rest => userRunDepths h d rest

/-! ### Concrete instances used by counterexamples and witnesses

Callbacks are opaque `Nat` tokens.  Handler ids carried by host-constructed
`EventHandler`s are below `100`; the fresh-id counter starts at `100`. -/

/-- An empty layout state with no attribute dicts. -/
def exInit : LayoutState Nat := ⟨[], [], [], [], 100, 0, []⟩

/-- A nested child dict carrying an event handler (id 20). -/
def exInner : RawModel Nat :=
  RawModel.mk (some "span") none (some [("onB", ⟨20, []⟩)]) none

/-- A model with a handler (id 10) at top level and a nested child dict with
a handler at the second nesting level. -/
def exTop : RawModel Nat :=
  RawModel.mk (some "div") none (some [("onA", ⟨10, []⟩)])
    (some (.many [.map exInner]))

/-- An element rendering `exTop`. -/
def exE : Element Nat := Element.mk "E" (.model exTop)

/-- A child element rendering a static span. -/
def exC : Element Nat :=
  Element.mk "C" (.model (RawModel.mk (some "span") none none none))

/-- A parent element whose model always references `exC`. -/
def exP : Element Nat :=
  Element.mk "P" (.model (RawModel.mk (some "div") none none
    (some (.many [.elem exC]))))

/-- The layout state after the first render of `exP` (stated literally; the
evaluation theorem `exS1_eval` checks it against `render_element`). -/
def exS1 : LayoutState Nat :=
  ⟨[("P", ⟨0, exP, [], ["C"], 0⟩), ("C", ⟨1, exC, [], [], 1⟩)], [], [],
    [RModel.mk (some "div") none [] (some [RChild.elemRef 1]),
     RModel.mk (some "span") none [] none], 100, 2,
    [.willRender "P" 0, .willRender "C" 1, .didRender "C" 1,
     .didRender "P" 0]⟩

/-- The layout state after re-rendering `exP` in `exS1`: `C`'s old state was
unmounted (hook 1) and a fresh one mounted (hook 2, new model dict at
address 2). -/
def exS2 : LayoutState Nat :=
  ⟨[("P", ⟨0, exP, [], ["C"], 0⟩), ("C", ⟨2, exC, [], [], 2⟩)], [], [],
    [RModel.mk (some "div") none [] (some [RChild.elemRef 2]),
     RModel.mk (some "span") none [] none,
     RModel.mk (some "span") none [] none], 100, 3,
    exS1.trace ++ [.willRender "P" 0, .willUnmount "C" 1, .willRender "C" 2,
      .didRender "C" 2, .didRender "P" 0]⟩

/-- A host attributes dict with one callable (not an `EventHandler`), one
callable `EventHandler` (id 5), and one plain value. -/
def exAttrs : List (String × AttrValue Nat) :=
  [("onClick", .cb 7), ("onBlur", .handler ⟨5, [9]⟩), ("color", .plain "red")]

/-- A button element whose model carries `exAttrs` (heap address 0) and an
`eventHandlers` entry that the callable attribute under the same key
overrides. -/
def exBtnModel : RawModel Nat :=
  RawModel.mk (some "button") (some 0) (some [("onClick", ⟨3, [8]⟩)]) none

def exBtn : Element Nat := Element.mk "B" (.model exBtnModel)

/-- Initial layout state with `B` mounted, owning the button's attributes
dict at heap address 0. -/
def exBtnState : LayoutState Nat :=
  ⟨[("B", ⟨0, exBtn, [], [], 0⟩)], [], [exAttrs], [RModel.empty], 100, 1, []⟩

/-- The result of `render_model_event_handlers` on the button model: the
callable attribute was wrapped in a fresh handler (id 100) overriding the
host handler under the same key, the `EventHandler` attribute (id 5) was
moved, the plain attribute stayed. -/
def exBtnEH : LayoutState Nat × List (String × Descriptor) :=
  (⟨[("B", ⟨0, exBtn, [100, 5], [], 0⟩)],
    [(100, ⟨100, [7]⟩), (5, ⟨5, [9]⟩)], [[("color", .plain "red")]],
    [RModel.empty], 101, 1, []⟩,
   [("onClick", ⟨100⟩), ("onBlur", ⟨5⟩)])

/-- The result of resolving the button model. -/
def exBtnOut : LayoutState Nat × RModel :=
  (exBtnEH.1, RModel.mk (some "button") (some 0) exBtnEH.2 none)

/-- The `P` element's state as mounted in `exS1`. -/
def exPState : ElementState Nat := ⟨0, exP, [], ["C"], 0⟩

/-- A root element for the layout-runtime scenario. -/
def exRoot : Element Nat :=
  Element.mk "root" (.model (RawModel.mk (some "div") none none
    (some (.many [.text "hello"]))))

/-- The layout runtime after the event loop completes the initial root
render task. -/
def exRT1 : LayoutRuntime Nat :=
  ⟨⟨[("root", ⟨0, exRoot, [], [], 0⟩)], [], [],
    [RModel.mk (some "div") none [] (some [RChild.text "hello"])], 100, 1,
    [.willRender "root" 0, .didRender "root" 0]⟩, exRoot, [], [0]⟩

/-- A layout state for the trigger scenario: callbacks are `Bool`s
interpreted by `exCall` (a `true` callback succeeds, a `false` one fails). -/
def exTrigSt : LayoutState Bool :=
  ⟨[], [(1, ⟨1, [true]⟩), (2, ⟨2, [false]⟩)], [], [], 100, 0, []⟩

/-- Interpretation of the `Bool` callbacks for the trigger scenario. -/
def exCall : Bool → List Nat → Except String Unit :=
  fun b _ => if b then .ok () else .error "handler failure"

/-- The layout state after unmounting the mounted `P` tree from `exS1`. -/
def exS1Unm : LayoutState Nat :=
  ⟨[], [], [], exS1.modelHeap, 100, 2,
    exS1.trace ++ [.willUnmount "P" 0, .willUnmount "C" 1]⟩

/-- What a successful unmount run establishes, with `evs` the ordered
`(element id, hook)` pairs of the `element_will_unmount` events it fired:
the trace grows by exactly those events; no element id is unmounted twice;
every fired event belongs to an element that was mounted (with that hook)
beforehand; entries of elements not fired are untouched and entries of fired
elements are deleted; the global handler table only shrinks; every fired
element's registered handler ids are gone from the global table; heaps and
counters are untouched. -/
def UnmountedAll (s s' : LayoutState Cb) (evs : List (String × Nat)) : Prop :=
  s'.trace = s.trace ++ evs.map (fun p => TraceEv.willUnmount p.1 p.2) ∧
  (evs.map Prod.fst).Nodup ∧
  (∀ p ∈ evs, ∃ v, pyLookup s.element_states p.1 = some v ∧
    v.life_cycle_hook = p.2) ∧
  (∀ k, k ∉ evs.map Prod.fst →
    pyLookup s'.element_states k = pyLookup s.element_states k) ∧
  (∀ k ∈ evs.map Prod.fst, pyLookup s'.element_states k = none) ∧
  (∀ hid v, pyLookup s'.event_handlers hid = some v →
    pyLookup s.event_handlers hid = some v) ∧
  (∀ p ∈ evs, ∀ v, pyLookup s.element_states p.1 = some v →
    ∀ hid ∈ v.event_handler_ids, pyLookup s'.event_handlers hid = none) ∧
  s'.attrHeap = s.attrHeap ∧ s'.modelHeap = s.modelHeap ∧
  s'.nextHandlerId = s.nextHandlerId ∧ s'.nextHookId = s.nextHookId

/-- What a successful `_unmount_element_state_children` run establishes: as
`UnmountedAll` for the children traversal, except that the surviving entry of
the state itself has its `child_elements_ids` cleared, and every recorded
child id was unmounted. -/
def UnmountedChildrenSpec (s : LayoutState Cb) (st : ElementState Cb)
    (s' : LayoutState Cb) (evs : List (String × Nat)) : Prop :=
  s'.trace = s.trace ++ evs.map (fun p => TraceEv.willUnmount p.1 p.2) ∧
  (evs.map Prod.fst).Nodup ∧
  (∀ p ∈ evs, ∃ v, pyLookup s.element_states p.1 = some v ∧
    v.life_cycle_hook = p.2) ∧
  (∀ k, k ∉ evs.map Prod.fst → k ≠ st.element_obj.id →
    pyLookup s'.element_states k = pyLookup s.element_states k) ∧
  (st.element_obj.id ∉ evs.map Prod.fst →
    pyLookup s'.element_states st.element_obj.id =
      (pyLookup s.element_states st.element_obj.id).map
        (fun v => { v with child_elements_ids := [] })) ∧
  (∀ k ∈ evs.map Prod.fst, pyLookup s'.element_states k = none) ∧
  (∀ hid v, pyLookup s'.event_handlers hid = some v →
    pyLookup s.event_handlers hid = some v) ∧
  (∀ p ∈ evs, ∀ v, pyLookup s.element_states p.1 = some v →
    ∀ hid ∈ v.event_handler_ids, pyLookup s'.event_handlers hid = none) ∧
  s'.attrHeap = s.attrHeap ∧ s'.modelHeap = s.modelHeap ∧
  s'.nextHandlerId = s.nextHandlerId ∧ s'.nextHookId = s.nextHookId ∧
  (∀ c ∈ st.child_elements_ids, c ∈ evs.map Prod.fst)

/-- Monotone facts every layout operation preserves: the trace only grows by
appending, the model heap only grows (dict objects are never deallocated
while the layout lives), and the attribute heap keeps its addresses with
entries only ever removed from each attributes dict (callable lifting pops
entries; nothing is ever added). -/
def MonoSpec (s s' : LayoutState Cb) : Prop :=
  (∃ Δ, s'.trace = s.trace ++ Δ) ∧
  s.modelHeap.length ≤ s'.modelHeap.length ∧
  s'.attrHeap.length = s.attrHeap.length ∧
  (∀ a d', s'.attrHeap.get? a = some d' →
    ∃ d, s.attrHeap.get? a = some d ∧
      ∀ k v, pyLookup d' k = some v → pyLookup d k = some v)

/-- The shape of the handler produced for a callable attribute value by the
scan of `_render_model_event_handlers` (lines 231-238), relative to the
handler-id counter `nid0` at entry: an attribute that is already an
`EventHandler` is moved as-is; a bare callable is wrapped in a fresh
`EventHandler` holding exactly that callback under a newly allocated id; a
non-callable value is never lifted. -/
def LiftedHandler (nid0 : Nat) : AttrValue Cb → EventHandler Cb → Prop
  | .handler h0, eh => eh = h0
  | .cb f, eh => eh.callbacks = [f] ∧ nid0 ≤ eh.id
  | .plain _, _ => False

/-! ## Theorems -/

/-! ### Dictionary lemmas -/

theorem pyLookup_pyRemove_self (d : List (κ × ν)) (k : κ) :
    pyLookup (pyRemove d k) k = none := by
  induction d with
  | nil => rfl
  | cons p rest ih =>
    obtain ⟨k', v'⟩ := p
    by_cases h : k' = k <;> simp [pyRemove, pyLookup, h, ih]

theorem pyLookup_pyRemove_ne (d : List (κ × ν)) (k k' : κ) (h : k' ≠ k) :
    pyLookup (pyRemove d k) k' = pyLookup d k' := by
  induction d with
  | nil => rfl
  | cons p rest ih =>
    obtain ⟨k₀, v₀⟩ := p
    by_cases h0 : k₀ = k
    · subst h0
      simp [pyRemove, pyLookup, Ne.symm h, ih]
    · simp [pyRemove, pyLookup, h0, ih]

theorem pyLookup_pyModify_self (d : List (κ × ν)) (k : κ) (f : ν → ν) :
    pyLookup (pyModify d k f) k = (pyLookup d k).map f := by
  induction d with
  | nil => rfl
  | cons p rest ih =>
    obtain ⟨k₀, v₀⟩ := p
    by_cases h0 : k₀ = k <;> simp [pyModify, pyLookup, h0, ih]

theorem pyLookup_pyModify_ne (d : List (κ × ν)) (k k' : κ) (f : ν → ν)
    (h : k' ≠ k) : pyLookup (pyModify d k f) k' = pyLookup d k' := by
  induction d with
  | nil => rfl
  | cons p rest ih =>
    obtain ⟨k₀, v₀⟩ := p
    by_cases h0 : k₀ = k
    · subst h0
      simp [pyModify, pyLookup, Ne.symm h, ih]
    · simp [pyModify, pyLookup, h0, ih]

theorem pyLookup_pyInsert_self (d : List (κ × ν)) (k : κ) (v : ν) :
    pyLookup (pyInsert d k v) k = some v := by
  induction d with
  | nil => simp [pyInsert, pyLookup]
  | cons p rest ih =>
    obtain ⟨k₀, v₀⟩ := p
    by_cases h0 : k₀ = k <;> simp [pyInsert, pyLookup, h0, ih]

theorem pyLookup_pyInsert_ne (d : List (κ × ν)) (k k' : κ) (v : ν)
    (h : k' ≠ k) : pyLookup (pyInsert d k v) k' = pyLookup d k' := by
  induction d with
  | nil => simp [pyInsert, pyLookup, Ne.symm h]
  | cons p rest ih =>
    obtain ⟨k₀, v₀⟩ := p
    by_cases h0 : k₀ = k
    · subst h0
      simp [pyInsert, pyLookup, Ne.symm h]
    · simp [pyInsert, pyLookup, h0, ih]

/-! ### Evaluation of the concrete instances

The evaluation proofs rewrite with the defining equations rather than relying
on definitional reduction of the fuelled recursors. -/

theorem exS1_eval : render_element 6 exInit exP = some (exS1, 0) := by
  simp [render_element, render_model, render_model_children,
    render_model_event_handlers, modelHandlers, clear_element_state_event_handlers,
    delHandlers, unmount_element_state, unmount_element_state_children,
    unmount_children, create_element_state, rawModelOf, normalizeChildren,
    pyLookup, pyInsert, pyUpdate, pyRemove, pyModify, pyKeys, scanAttrs,
    exInit, exP, exC, exS1, Element.id, Element.renders, RawModel.children,
    RawModel.attributes, RawModel.eventHandlers, RawModel.tagName,
    RModel.empty]

theorem exS2_eval : render_element 6 exS1 exP = some (exS2, 0) := by
  simp [render_element, render_model, render_model_children,
    render_model_event_handlers, modelHandlers, clear_element_state_event_handlers,
    delHandlers, unmount_element_state, unmount_element_state_children,
    unmount_children, create_element_state, rawModelOf, normalizeChildren,
    pyLookup, pyInsert, pyUpdate, pyRemove, pyModify, pyKeys, scanAttrs,
    exInit, exP, exC, exS1, exS2, Element.id, Element.renders,
    RawModel.children, RawModel.attributes, RawModel.eventHandlers,
    RawModel.tagName, RModel.empty]

theorem exS1Unm_eval :
    unmount_element_state 6 exS1 exPState = some exS1Unm := by
  simp [unmount_element_state, unmount_element_state_children,
    unmount_children, clear_element_state_event_handlers, delHandlers,
    pyLookup, pyInsert, pyUpdate, pyRemove, pyModify, pyKeys, exS1, exS1Unm,
    exPState, exP, exC, Element.id]

theorem exBtnEH_eval :
    render_model_event_handlers exBtnState "B" exBtnModel = some exBtnEH := by
  simp [render_model_event_handlers, modelHandlers, exBtnState, exBtnModel, exBtnEH,
    exAttrs, exBtn, scanAttrs, pyLookup, pyInsert, pyUpdate, pyRemove,
    pyModify, pyKeys, RawModel.attributes, RawModel.eventHandlers,
    Element.id]

theorem exBtnOut_eval :
    render_model 6 exBtnState "B" exBtnModel = some exBtnOut := by
  simp [render_model, render_model_event_handlers, modelHandlers, exBtnState, exBtnModel,
    exBtnOut, exBtnEH, exAttrs, exBtn, scanAttrs, pyLookup, pyInsert,
    pyUpdate, pyRemove, pyModify, pyKeys, RawModel.attributes,
    RawModel.eventHandlers, RawModel.children, RawModel.tagName, Element.id]

theorem exRT1_eval :
    Layout.completeRender (Layout.start exRoot [] 100) 0 6 = some exRT1 := by
  simp [Layout.completeRender, Layout.start, exRoot, exRT1,
    render_element, render_model, render_model_children,
    render_model_event_handlers, modelHandlers, clear_element_state_event_handlers,
    delHandlers, unmount_element_state, unmount_element_state_children,
    unmount_children, create_element_state, rawModelOf, normalizeChildren,
    pyLookup, pyInsert, pyUpdate, pyRemove, pyModify, pyKeys, scanAttrs,
    Element.id, Element.renders, RawModel.children, RawModel.attributes,
    RawModel.eventHandlers, RawModel.tagName, RModel.empty]

theorem pyLookup_mem (d : List (κ × ν)) (k : κ) (v : ν)
    (h : pyLookup d k = some v) : (k, v) ∈ d := by
  induction d with
  | nil => cases h
  | cons p rest ih =>
    obtain ⟨k₀, v₀⟩ := p
    simp only [pyLookup] at h
    by_cases h0 : k₀ = k
    · rw [if_pos h0] at h
      cases h
      subst h0
      exact List.mem_cons_self _ _
    · rw [if_neg h0] at h
      exact List.mem_cons_of_mem _ (ih h)

/-- The key-consistency invariant of the element-state table follows from an
entrywise (decidable) check. -/
theorem wf_of_all (s : LayoutState Cb)
    (hall : ∀ q ∈ s.element_states, q.2.element_obj.id = q.1) :
    ∀ k v, pyLookup s.element_states k = some v → v.element_obj.id = k :=
  fun k v hv => hall (k, v) (pyLookup_mem _ _ _ hv)

/-! ### Specifications of the handler-clearing and unmount operations -/

theorem delHandlers_spec (ids : List Nat) :
    ∀ tbl tbl' : List (Nat × EventHandler Cb),
      delHandlers tbl ids = some tbl' →
      (∀ hid v, pyLookup tbl' hid = some v → pyLookup tbl hid = some v) ∧
      (∀ hid ∈ ids, pyLookup tbl' hid = none) := by
  induction ids with
  | nil =>
    intro tbl tbl' h
    simp only [delHandlers] at h
    cases h
    exact ⟨fun _ _ hv => hv, by simp⟩
  | cons hid rest ih =>
    intro tbl tbl' h
    simp only [delHandlers] at h
    cases hl : pyLookup tbl hid with
    | none => rw [hl] at h; cases h
    | some v0 =>
      rw [hl] at h
      obtain ⟨hsh, hall⟩ := ih _ _ h
      have shrink : ∀ hid' v, pyLookup tbl' hid' = some v →
          pyLookup tbl hid' = some v := by
        intro hid' v hv
        have hrem := hsh hid' v hv
        by_cases he : hid' = hid
        · subst he
          rw [pyLookup_pyRemove_self] at hrem
          cases hrem
        · rwa [pyLookup_pyRemove_ne _ _ _ he] at hrem
      refine ⟨shrink, ?_⟩
      intro hid' hmem
      rcases List.mem_cons.mp hmem with he | hm
      · subst he
        cases hv : pyLookup tbl' hid' with
        | none => rfl
        | some v =>
          have hrem := hsh hid' v hv
          rw [pyLookup_pyRemove_self] at hrem
          cases hrem
      · exact hall hid' hm

theorem clear_spec (s : LayoutState Cb) (st : ElementState Cb)
    (s' : LayoutState Cb)
    (h : clear_element_state_event_handlers s st = some s') :
    s'.trace = s.trace ∧ s'.attrHeap = s.attrHeap ∧
    s'.modelHeap = s.modelHeap ∧ s'.nextHandlerId = s.nextHandlerId ∧
    s'.nextHookId = s.nextHookId ∧
    (∀ hid v, pyLookup s'.event_handlers hid = some v →
      pyLookup s.event_handlers hid = some v) ∧
    (∀ hid ∈ st.event_handler_ids, pyLookup s'.event_handlers hid = none) ∧
    (∀ k, k ≠ st.element_obj.id →
      pyLookup s'.element_states k = pyLookup s.element_states k) ∧
    pyLookup s'.element_states st.element_obj.id =
      (pyLookup s.element_states st.element_obj.id).map
        (fun v => { v with event_handler_ids := [] }) := by
  simp only [clear_element_state_event_handlers, Option.bind_eq_some] at h
  obtain ⟨tbl, hd, h⟩ := h
  cases h
  obtain ⟨hsh, hall⟩ := delHandlers_spec _ _ _ hd
  exact ⟨rfl, rfl, rfl, rfl, rfl, hsh, hall,
    fun k hk => pyLookup_pyModify_ne _ _ _ _ hk,
    pyLookup_pyModify_self _ _ _⟩

theorem UnmountedAll_refl (s : LayoutState Cb) : UnmountedAll s s [] := by
  refine ⟨by simp, by simp, by simp, by simp, by simp, fun _ _ hv => hv,
    by simp, rfl, rfl, rfl, rfl⟩

theorem UnmountedAll_append {s s1 s2 : LayoutState Cb}
    {evs1 evs2 : List (String × Nat)} (h1 : UnmountedAll s s1 evs1)
    (h2 : UnmountedAll s1 s2 evs2) : UnmountedAll s s2 (evs1 ++ evs2) := by
  obtain ⟨t1, nd1, src1, fr1, del1, sh1, rm1, a1, m1, nh1, nk1⟩ := h1
  obtain ⟨t2, nd2, src2, fr2, del2, sh2, rm2, a2, m2, nh2, nk2⟩ := h2
  have hdisj : ∀ k, k ∈ evs2.map Prod.fst → k ∉ evs1.map Prod.fst := by
    intro k hk2 hk1
    obtain ⟨p, hp, hpk⟩ := List.mem_map.mp hk2
    obtain ⟨v, hv, _⟩ := src2 p hp
    rw [hpk] at hv
    rw [del1 k hk1] at hv
    cases hv
  refine ⟨?_, ?_, ?_, ?_, ?_, ?_, ?_, ?_, ?_, ?_, ?_⟩
  · rw [t2, t1, List.map_append, List.append_assoc]
  · rw [List.map_append]
    exact List.Nodup.append nd1 nd2 (fun k hk1 hk2 => hdisj k hk2 hk1)
  · intro p hp
    rcases List.mem_append.mp hp with hp1 | hp2
    · exact src1 p hp1
    · obtain ⟨v, hv, hhook⟩ := src2 p hp2
      have hnot1 : p.1 ∉ evs1.map Prod.fst :=
        hdisj p.1 (List.mem_map.mpr ⟨p, hp2, rfl⟩)
      rw [fr1 p.1 hnot1] at hv
      exact ⟨v, hv, hhook⟩
  · intro k hk
    rw [List.map_append, List.mem_append] at hk
    push_neg at hk
    rw [fr2 k hk.2, fr1 k hk.1]
  · intro k hk
    rw [List.map_append, List.mem_append] at hk
    rcases hk with hk1 | hk2
    · by_cases hk2 : k ∈ evs2.map Prod.fst
      · exact del2 k hk2
      · rw [fr2 k hk2]
        exact del1 k hk1
    · exact del2 k hk2
  · intro hid v hv
    exact sh1 hid v (sh2 hid v hv)
  · intro p hp v hv hid hhid
    rcases List.mem_append.mp hp with hp1 | hp2
    · have hnone := rm1 p hp1 v hv hid hhid
      cases hv2 : pyLookup s2.event_handlers hid with
      | none => rfl
      | some w =>
        have := sh2 hid w hv2
        rw [hnone] at this
        cases this
    · have hnot1 : p.1 ∉ evs1.map Prod.fst :=
        hdisj p.1 (List.mem_map.mpr ⟨p, hp2, rfl⟩)
      have hv1 : pyLookup s1.element_states p.1 = some v := by
        rw [fr1 p.1 hnot1]; exact hv
      exact rm2 p hp2 v hv1 hid hhid
  · rw [a2, a1]
  · rw [m2, m1]
  · rw [nh2, nh1]
  · rw [nk2, nk1]

/-- The simultaneous specification of the three unmount operations, by
induction on fuel.  `hwf` is the key-consistency invariant of the
element-state table (every entry's `element_obj.id` is its key), which every
state built by the layout operations satisfies. -/
theorem unmount_spec : ∀ n : Nat,
    (∀ (s : LayoutState Cb) (st : ElementState Cb) (s' : LayoutState Cb),
      (∀ k v, pyLookup s.element_states k = some v → v.element_obj.id = k) →
      pyLookup s.element_states st.element_obj.id = some st →
      unmount_element_state n s st = some s' →
      ∃ rest,
        UnmountedAll s s' ((st.element_obj.id, st.life_cycle_hook) :: rest) ∧
        ∀ c ∈ st.child_elements_ids,
          c ∈ ((st.element_obj.id, st.life_cycle_hook) :: rest).map Prod.fst) ∧
    (∀ (s : LayoutState Cb) (st : ElementState Cb) (s' : LayoutState Cb),
      (∀ k v, pyLookup s.element_states k = some v → v.element_obj.id = k) →
      unmount_element_state_children n s st = some s' →
      ∃ evs, UnmountedChildrenSpec s st s' evs) ∧
    (∀ (s : LayoutState Cb) (ids : List String) (s' : LayoutState Cb),
      (∀ k v, pyLookup s.element_states k = some v → v.element_obj.id = k) →
      unmount_children n s ids = some s' →
      ∃ evs, UnmountedAll s s' evs ∧ ∀ c ∈ ids, c ∈ evs.map Prod.fst) := by
  intro n
  induction n with
  | zero =>
    refine ⟨?_, ?_, ?_⟩
    · intro s st s' _ _ h
      simp [unmount_element_state] at h
    · intro s st s' _ h
      simp [unmount_element_state_children] at h
    · intro s ids s' _ h
      cases ids with
      | nil =>
        simp only [unmount_children] at h
        cases h
        exact ⟨[], UnmountedAll_refl s, by simp⟩
      | cons c rest => simp [unmount_children] at h
  | succ n ih =>
    obtain ⟨ihES, ihESC, ihIds⟩ := ih
    refine ⟨?_, ?_, ?_⟩
    -- unmount_element_state
    · intro s st s' hwf hst h
      simp only [unmount_element_state, Option.bind_eq_some] at h
      obtain ⟨s2, hc, s3, hu, stf, hlk, h⟩ := h
      cases h
      obtain ⟨t2, a2, m2, nh2, nk2, sh2, hall2, fr2, own2⟩ :=
        clear_spec _ st s2 hc
      have hwf2 : ∀ k v, pyLookup s2.element_states k = some v →
          v.element_obj.id = k := by
        intro k v hv
        by_cases hk : k = st.element_obj.id
        · subst hk
          rw [own2] at hv
          have hst' : pyLookup
              ({ s with trace := s.trace ++
                [TraceEv.willUnmount st.element_obj.id st.life_cycle_hook]
               } : LayoutState Cb).element_states st.element_obj.id
              = some st := hst
          rw [hst'] at hv
          simp only [Option.map_some'] at hv
          cases hv
          rfl
        · rw [fr2 k hk] at hv
          exact hwf k v hv
      obtain ⟨evsC, tC, ndC, srcC, frC, ownC, delC, shC, rmC, aC, mC,
        nhC, nkC, covC⟩ := ihESC s2 st s3 hwf2 hu
      have hOwnNotC : st.element_obj.id ∉ evsC.map Prod.fst := by
        intro hmem
        rw [delC _ hmem] at hlk
        simp at hlk
      refine ⟨evsC, ⟨?_, ?_, ?_, ?_, ?_, ?_, ?_, ?_, ?_, ?_, ?_⟩, ?_⟩
      · show s3.trace = s.trace ++ _
        rw [tC, t2]
        simp
      · simp only [List.map_cons]
        exact List.nodup_cons.mpr ⟨hOwnNotC, ndC⟩
      · intro p hp
        rcases List.mem_cons.mp hp with hp0 | hpC
        · subst hp0
          exact ⟨st, hst, rfl⟩
        · obtain ⟨v, hv, hhook⟩ := srcC p hpC
          have hne : p.1 ≠ st.element_obj.id := by
            intro he
            exact hOwnNotC (he ▸ List.mem_map.mpr ⟨p, hpC, rfl⟩)
          rw [fr2 p.1 hne] at hv
          exact ⟨v, hv, hhook⟩
      · intro k hk
        simp only [List.map_cons, List.mem_cons, not_or] at hk
        obtain ⟨hk0, hkC⟩ := hk
        show pyLookup (pyRemove s3.element_states st.element_obj.id) k = _
        rw [pyLookup_pyRemove_ne _ _ _ hk0, frC k hkC hk0, fr2 k hk0]
      · intro k hk
        simp only [List.map_cons, List.mem_cons] at hk
        show pyLookup (pyRemove s3.element_states st.element_obj.id) k = none
        rcases hk with hk0 | hkC
        · subst hk0
          exact pyLookup_pyRemove_self _ _
        · have hne : k ≠ st.element_obj.id := by
            intro he
            exact hOwnNotC (he ▸ hkC)
          rw [pyLookup_pyRemove_ne _ _ _ hne]
          exact delC k hkC
      · intro hid v hv
        exact sh2 hid v (shC hid v hv)
      · intro p hp v hv hid hhid
        rcases List.mem_cons.mp hp with hp0 | hpC
        · subst hp0
          simp only at hv
          rw [hst] at hv
          cases hv
          have h2none := hall2 hid hhid
          cases h3 : pyLookup s3.event_handlers hid with
          | none => rfl
          | some w =>
            rw [shC hid w h3] at h2none
            simp at h2none
        · have hne : p.1 ≠ st.element_obj.id := by
            intro he
            exact hOwnNotC (he ▸ List.mem_map.mpr ⟨p, hpC, rfl⟩)
          have hv2 : pyLookup s2.element_states p.1 = some v := by
            rw [fr2 p.1 hne]
            exact hv
          exact rmC p hpC v hv2 hid hhid
      · show s3.attrHeap = s.attrHeap
        rw [aC, a2]
      · show s3.modelHeap = s.modelHeap
        rw [mC, m2]
      · show s3.nextHandlerId = s.nextHandlerId
        rw [nhC, nh2]
      · show s3.nextHookId = s.nextHookId
        rw [nkC, nk2]
      · intro c hc'
        simp only [List.map_cons, List.mem_cons]
        exact Or.inr (covC c hc')
    -- unmount_element_state_children
    · intro s st s' hwf h
      simp only [unmount_element_state_children, Option.bind_eq_some] at h
      obtain ⟨sc, hu, h⟩ := h
      cases h
      obtain ⟨evs, hUA, hcov⟩ := ihIds s _ sc hwf hu
      obtain ⟨tC, ndC, srcC, frC, delC, shC, rmC, aC, mC, nhC, nkC⟩ := hUA
      refine ⟨evs, tC, ndC, srcC, ?_, ?_, ?_, shC, rmC, aC, mC, nhC, nkC,
        hcov⟩
      · intro k hk hko
        show pyLookup (pyModify sc.element_states st.element_obj.id _) k = _
        rw [pyLookup_pyModify_ne _ _ _ _ hko]
        exact frC k hk
      · intro hOwn
        show pyLookup (pyModify sc.element_states st.element_obj.id _)
            st.element_obj.id = _
        rw [pyLookup_pyModify_self, frC _ hOwn]
      · intro k hk
        by_cases hko : k = st.element_obj.id
        · rw [hko] at hk ⊢
          show pyLookup (pyModify sc.element_states st.element_obj.id _)
              st.element_obj.id = none
          rw [pyLookup_pyModify_self, delC _ hk]
          rfl
        · show pyLookup (pyModify sc.element_states st.element_obj.id _) k
              = none
          rw [pyLookup_pyModify_ne _ _ _ _ hko]
          exact delC k hk
    -- unmount_children
    · intro s ids s' hwf h
      cases ids with
      | nil =>
        simp only [unmount_children] at h
        cases h
        exact ⟨[], UnmountedAll_refl s, by simp⟩
      | cons cid rest =>
        simp only [unmount_children, Option.bind_eq_some] at h
        obtain ⟨stc, hlk, s1, hu, h⟩ := h
        have hid : stc.element_obj.id = cid := hwf cid stc hlk
        have hst : pyLookup s.element_states stc.element_obj.id
            = some stc := by rw [hid]; exact hlk
        obtain ⟨rest1, hUA1, _⟩ := ihES s stc s1 hwf hst hu
        have fr1 := hUA1.2.2.2.1
        have del1 := hUA1.2.2.2.2.1
        have hwf1 : ∀ k v, pyLookup s1.element_states k = some v →
            v.element_obj.id = k := by
          intro k v hv
          by_cases hk : k ∈ ((stc.element_obj.id, stc.life_cycle_hook)
              :: rest1).map Prod.fst
          · rw [del1 k hk] at hv
            cases hv
          · rw [fr1 k hk] at hv
            exact hwf k v hv
        obtain ⟨evs2, hUA2, hcov2⟩ := ihIds s1 rest s' hwf1 h
        refine ⟨((stc.element_obj.id, stc.life_cycle_hook) :: rest1)
          ++ evs2, UnmountedAll_append hUA1 hUA2, ?_⟩
        intro c hc'
        rw [List.map_append, List.mem_append]
        rcases List.mem_cons.mp hc' with hc0 | hcr
        · subst hc0
          exact Or.inl (by simp [hid])
        · exact Or.inr (hcov2 c hcr)

/-! ### Monotone facts about the layout operations -/

theorem pyLookup_pyRemove_shrink (d : List (κ × ν)) (k0 k : κ) (v : ν)
    (h : pyLookup (pyRemove d k0) k = some v) : pyLookup d k = some v := by
  by_cases hk : k = k0
  · subst hk
    rw [pyLookup_pyRemove_self] at h
    cases h
  · rwa [pyLookup_pyRemove_ne _ _ _ hk] at h

theorem scanAttrs_attrs_shrink :
    ∀ (items : List (String × AttrValue Cb)) nid hs attrs (k : String) v,
      pyLookup (scanAttrs nid hs attrs items).2.2 k = some v →
      pyLookup attrs k = some v := by
  intro items
  induction items with
  | nil =>
    intro nid hs attrs k v h
    exact h
  | cons p rest ih =>
    intro nid hs attrs k v h
    obtain ⟨k0, w⟩ := p
    cases w with
    | plain t =>
      simp only [scanAttrs] at h
      exact ih _ _ _ _ _ h
    | cb f =>
      simp only [scanAttrs] at h
      exact pyLookup_pyRemove_shrink _ _ _ _ (ih _ _ _ _ _ h)
    | handler hh =>
      simp only [scanAttrs] at h
      exact pyLookup_pyRemove_shrink _ _ _ _ (ih _ _ _ _ _ h)

theorem MonoSpec.refl (s : LayoutState Cb) : MonoSpec s s :=
  ⟨⟨[], by simp⟩, le_refl _, Eq.refl _,
    fun _ d' hd' => ⟨d', hd', fun _ _ hv => hv⟩⟩

theorem MonoSpec.trans {s1 s2 s3 : LayoutState Cb} (h1 : MonoSpec s1 s2)
    (h2 : MonoSpec s2 s3) : MonoSpec s1 s3 := by
  obtain ⟨⟨d1, ht1⟩, hm1, ha1, hs1⟩ := h1
  obtain ⟨⟨d2, ht2⟩, hm2, ha2, hs2⟩ := h2
  refine ⟨⟨d1 ++ d2, by rw [ht2, ht1, List.append_assoc]⟩, le_trans hm1 hm2,
    ha2.trans ha1, fun a d' hd' => ?_⟩
  obtain ⟨dm, hdm, hsub2⟩ := hs2 a d' hd'
  obtain ⟨d0, hd0, hsub1⟩ := hs1 a dm hdm
  exact ⟨d0, hd0, fun k v hv => hsub1 k v (hsub2 k v hv)⟩

/-- A state change that leaves both heaps unchanged and appends to the trace
is monotone. -/
theorem MonoSpec.ofParts {s s' : LayoutState Cb}
    (ht : ∃ Δ, s'.trace = s.trace ++ Δ) (hm : s'.modelHeap = s.modelHeap)
    (ha : s'.attrHeap = s.attrHeap) : MonoSpec s s' := by
  refine ⟨ht, by rw [hm], by rw [ha], fun a d' hd' => ?_⟩
  rw [ha] at hd'
  exact ⟨d', hd', fun _ _ hv => hv⟩

theorem clear_mono (s : LayoutState Cb) (st : ElementState Cb)
    (s' : LayoutState Cb)
    (h : clear_element_state_event_handlers s st = some s') :
    MonoSpec s s' := by
  simp only [clear_element_state_event_handlers, Option.bind_eq_some] at h
  obtain ⟨tbl, _, h⟩ := h
  cases h
  exact MonoSpec.ofParts ⟨[], by simp⟩ rfl rfl

theorem create_element_state_mono (s : LayoutState Cb) (e : Element Cb) :
    MonoSpec s (create_element_state s e) := by
  refine ⟨⟨[], by simp [create_element_state]⟩, ?_, rfl,
    fun _ d' hd' => ⟨d', hd', fun _ _ hv => hv⟩⟩
  simp [create_element_state]

theorem render_model_event_handlers_mono (s : LayoutState Cb) (eid : String)
    (m : RawModel Cb) (q : LayoutState Cb × List (String × Descriptor))
    (h : render_model_event_handlers s eid m = some q) : MonoSpec s q.1 := by
  rcases m with ⟨mt, ma, me, mc⟩
  simp only [render_model_event_handlers, RawModel.attributes,
    RawModel.eventHandlers, Option.bind_eq_some] at h
  cases ma with
  | none =>
    obtain ⟨q', hq', h⟩ := h
    cases hq'
    cases h
    exact MonoSpec.ofParts ⟨[], by simp⟩ rfl rfl
  | some a =>
    obtain ⟨q', hq', h⟩ := h
    rw [Option.map_eq_some'] at hq'
    obtain ⟨attrs, hget, hq'⟩ := hq'
    cases hq'
    cases h
    refine ⟨⟨[], by simp⟩, le_refl _, by simp, fun a' d' hd' => ?_⟩
    simp only [List.get?_eq_getElem?] at hd' hget ⊢
    by_cases ha' : a = a'
    · subst ha'
      have hlt : a < s.attrHeap.length := by
        by_contra hge
        rw [List.getElem?_eq_none (le_of_not_lt hge)] at hget
        cases hget
      rw [List.getElem?_set_eq_of_lt _ hlt] at hd'
      cases hd'
      exact ⟨attrs, hget, fun k v hv => scanAttrs_attrs_shrink _ _ _ _ _ _ hv⟩
    · rw [List.getElem?_set_ne ha'] at hd'
      exact ⟨d', hd', fun _ _ hv => hv⟩

/-- All six layout operations are monotone in the sense of `MonoSpec`. -/
theorem mono_spec : ∀ n : Nat,
    (∀ (s : LayoutState Cb) st s', unmount_element_state n s st = some s' →
      MonoSpec s s') ∧
    (∀ (s : LayoutState Cb) st s',
      unmount_element_state_children n s st = some s' → MonoSpec s s') ∧
    (∀ (s : LayoutState Cb) ids s', unmount_children n s ids = some s' →
      MonoSpec s s') ∧
    (∀ (s : LayoutState Cb) e p, render_element n s e = some p →
      MonoSpec s p.1) ∧
    (∀ (s : LayoutState Cb) eid m p, render_model n s eid m = some p →
      MonoSpec s p.1) ∧
    (∀ (s : LayoutState Cb) eid cs p, render_model_children n s eid cs = some p →
      MonoSpec s p.1) := by
  intro n
  induction n with
  | zero =>
    refine ⟨?_, ?_, ?_, ?_, ?_, ?_⟩
    · intro s st s' h
      simp [unmount_element_state] at h
    · intro s st s' h
      simp [unmount_element_state_children] at h
    · intro s ids s' h
      cases ids with
      | nil =>
        simp only [unmount_children] at h
        cases h
        exact MonoSpec.refl s
      | cons c rest => simp [unmount_children] at h
    · intro s e p h
      simp [render_element] at h
    · intro s eid m p h
      simp [render_model] at h
    · intro s eid cs p h
      cases cs with
      | nil =>
        simp only [render_model_children] at h
        cases h
        exact MonoSpec.refl s
      | cons c rest => simp [render_model_children] at h
  | succ n ih =>
    obtain ⟨ihES, ihESC, ihIds, ihRE, ihRM, ihRC⟩ := ih
    have hChildrenStep : ∀ (s : LayoutState Cb) eid
        (cs : List (RawChild Cb)) p,
        render_model_children (n + 1) s eid cs = some p → MonoSpec s p.1 := by
      intro s eid cs p h
      cases cs with
      | nil =>
        simp only [render_model_children] at h
        cases h
        exact MonoSpec.refl s
      | cons c rest =>
        cases c with
        | map m =>
          simp only [render_model_children, Option.bind_eq_some] at h
          obtain ⟨p1, h1, r1, h2, h⟩ := h
          cases h
          exact (MonoSpec.trans (ihRM _ _ _ p1 h1) (ihRC _ _ _ r1 h2))
        | elem ce =>
          simp only [render_model_children, Option.bind_eq_some] at h
          obtain ⟨p1, h1, r1, h2, h⟩ := h
          cases h
          refine MonoSpec.trans ?_
            (MonoSpec.trans (ihRE _ _ p1 h1) (ihRC _ _ _ r1 h2))
          exact MonoSpec.ofParts ⟨[], by simp⟩ rfl rfl
        | text t =>
          simp only [render_model_children, Option.bind_eq_some] at h
          obtain ⟨r1, h1, h⟩ := h
          cases h
          exact ihRC _ _ _ r1 h1
    refine ⟨?_, ?_, ?_, ?_, ?_, hChildrenStep⟩
    · intro s st s' h
      simp only [unmount_element_state, Option.bind_eq_some] at h
      obtain ⟨s2, hc, s3, hu, stf, hlk, h⟩ := h
      cases h
      refine MonoSpec.trans ?_
        (MonoSpec.trans (clear_mono _ st s2 hc)
          (MonoSpec.trans (ihESC _ st s3 hu) ?_))
      · exact MonoSpec.ofParts ⟨_, rfl⟩ rfl rfl
      · exact MonoSpec.ofParts ⟨[], by simp⟩ rfl rfl
    · intro s st s' h
      simp only [unmount_element_state_children, Option.bind_eq_some] at h
      obtain ⟨sc, hu, h⟩ := h
      cases h
      refine MonoSpec.trans (ihIds _ _ sc hu) ?_
      exact MonoSpec.ofParts ⟨[], by simp⟩ rfl rfl
    · intro s ids s' h
      cases ids with
      | nil =>
        simp only [unmount_children] at h
        cases h
        exact MonoSpec.refl s
      | cons cid rest =>
        simp only [unmount_children, Option.bind_eq_some] at h
        obtain ⟨stc, _, s1, hu, h⟩ := h
        exact MonoSpec.trans (ihES _ _ _ hu) (ihIds _ _ _ h)
    · intro s e p h
      simp only [render_element, Option.bind_eq_some] at h
      cases hlk : (pyLookup s.element_states e.id).isSome with
      | true =>
        rw [hlk] at h
        simp only [if_true] at h
        obtain ⟨st, hst, s2, hc, s3, hu, p4, h4, h⟩ := h
        cases h
        refine MonoSpec.trans ?_
          (MonoSpec.trans (clear_mono _ st s2 hc)
            (MonoSpec.trans (ihESC _ st s3 hu)
              (MonoSpec.trans (ihRM _ _ _ p4 h4) ?_)))
        · exact MonoSpec.ofParts ⟨_, rfl⟩ rfl rfl
        · refine ⟨⟨[TraceEv.didRender e.id st.life_cycle_hook], by simp⟩, ?_,
            rfl, fun _ d' hd' => ⟨d', hd', fun _ _ hv => hv⟩⟩
          simp
      | false =>
        rw [hlk] at h
        simp only [Bool.false_eq_true, if_false] at h
        obtain ⟨st, hst, s2, hc, s3, hu, p4, h4, h⟩ := h
        cases h
        refine MonoSpec.trans (create_element_state_mono s e)
          (MonoSpec.trans ?_
          (MonoSpec.trans (clear_mono _ st s2 hc)
            (MonoSpec.trans (ihESC _ st s3 hu)
              (MonoSpec.trans (ihRM _ _ _ p4 h4) ?_))))
        · exact MonoSpec.ofParts ⟨_, rfl⟩ rfl rfl
        · refine ⟨⟨[TraceEv.didRender e.id st.life_cycle_hook], by simp⟩, ?_,
            rfl, fun _ d' hd' => ⟨d', hd', fun _ _ hv => hv⟩⟩
          simp
    · intro s eid m p h
      rcases m with ⟨mt, ma, me, mc⟩
      cases mc with
      | none =>
        simp only [render_model, RawModel.children, Option.bind_eq_some] at h
        obtain ⟨q, hq, h⟩ := h
        cases h
        exact render_model_event_handlers_mono _ _ _ q hq
      | some cs =>
        simp only [render_model, RawModel.children, Option.bind_eq_some] at h
        obtain ⟨q, hq, r, hr, h⟩ := h
        cases h
        exact MonoSpec.trans (render_model_event_handlers_mono _ _ _ q hq)
          (ihRC _ _ _ r hr)

/-! ### C7 — hook-stack discipline of `_render_with_life_cycle_hook` -/

theorem userRunDepths_block (h : Nat) (d : Int) (t : List HookEv) :
    userRunDepths h d
      ([.setCurrent h, .userRun, .yieldOut, .resumed, .unsetCurrent h] ++ t)
      = (d + 1) :: userRunDepths h d t := by
  simp [userRunDepths]

theorem suspendedDepths_block (h : Nat) (d : Int) (t : List HookEv) :
    suspendedDepths h d
      ([.setCurrent h, .userRun, .yieldOut, .resumed, .unsetCurrent h] ++ t)
      = (d + 1) :: suspendedDepths h d t := by
  simp [suspendedDepths]

/-- C7 (counterexample): the claim states the hook is popped
(`unset_current`) on every yield-out, so that it is not current while the
render is suspended.  In the code the `finally` clause containing
`unset_current()` runs only once the wrapper is resumed and the `try` block
around the `yield` finishes, so while a render that yields once is
suspended, the hook's net stack depth is 1, not 0. -/
theorem C7_counterexample_hook_current_while_suspended :
    ¬ (∀ d ∈ suspendedDepths 0 0 (render_with_life_cycle_hook 0 1), d = 0) := by
  decide

/-- C7 (amended): the hook is pushed (`set_current`) before every resumption
of the render generator — so its depth is 1 at every execution of user code —
and popped (`unset_current`) after the wrapper is resumed following each
yield-out, on `StopIteration`, and on an exception thrown into the wrapper;
pushes and pops balance over the whole drive.  The hook therefore *remains*
current (depth 1) while the render is suspended. -/
theorem C7_amended_hook_discipline (h n : Nat) :
    (∀ d ∈ userRunDepths h 0 (render_with_life_cycle_hook h n), d = 1) ∧
    (∀ d ∈ suspendedDepths h 0 (render_with_life_cycle_hook h n), d = 1) ∧
    hookDepth h (render_with_life_cycle_hook h n) = 0 ∧
    hookDepth h (render_with_life_cycle_hook_throw h n) = 0 := by
  induction n with
  | zero =>
    refine ⟨?_, ?_, ?_, ?_⟩ <;>
      simp [render_with_life_cycle_hook, render_with_life_cycle_hook_throw,
        userRunDepths, suspendedDepths, hookDepth, List.count_cons]
  | succ n ih =>
    obtain ⟨ih1, ih2, ih3, ih4⟩ := ih
    refine ⟨?_, ?_, ?_, ?_⟩
    · simp only [render_with_life_cycle_hook, userRunDepths_block]
      intro d hd
      rcases List.mem_cons.mp hd with h1 | h1
      · omega
      · exact ih1 d h1
    · simp only [render_with_life_cycle_hook, suspendedDepths_block]
      intro d hd
      rcases List.mem_cons.mp hd with h1 | h1
      · omega
      · exact ih2 d h1
    · simp only [render_with_life_cycle_hook]
      simp only [hookDepth, List.count_append] at ih3 ⊢
      simp [List.count_cons] at ih3 ⊢
      omega
    · simp only [render_with_life_cycle_hook_throw]
      simp only [hookDepth, List.count_append] at ih4 ⊢
      simp [List.count_cons] at ih4 ⊢
      omega

/-! ### C8 — FutureQueue semantics -/

/-- C8: `FutureQueue.get` suspends (`none`) exactly while no registered task
has reached a terminal state, consumes exactly one completion — the head of
the done channel, which disappears from the queue so no other `get` can
deliver it — and returns that task's own outcome verbatim (the `Except`
value: the result on success, the task's own failure otherwise); `put`
registers a task without completing it, and completing pending task `i`
moves it from `_pending` onto the done channel. -/
theorem C8_future_queue_get {E V : Type} (q : FutureQueue (Except E V)) :
    (FutureQueue.get q = none ↔ q.done = []) ∧
    (∀ t rest, q.done = t :: rest →
      FutureQueue.get q = some (t, ⟨q.pending, rest⟩)) ∧
    (∀ t, (FutureQueue.put q t).pending = q.pending ++ [t] ∧
      (FutureQueue.put q t).done = q.done) ∧
    (∀ i t, q.pending.get? i = some t →
      FutureQueue.complete q i = some ⟨q.pending.eraseIdx i, q.done ++ [t]⟩) := by
  refine ⟨?_, ?_, ?_, ?_⟩
  · cases hq : q.done <;> simp [FutureQueue.get, hq]
  · intro t rest h
    simp [FutureQueue.get, h]
  · intro t
    exact ⟨rfl, rfl⟩
  · intro i t h
    simp only [List.get?_eq_getElem?] at h
    simp [FutureQueue.complete, h]

/-- Witness for C8 at a concrete queue holding one pending successful task
and one completed failed task. -/
theorem C8_future_queue_get_witness :
    FutureQueue.get
        (⟨[Except.ok 5], [Except.error "boom"]⟩ : FutureQueue (Except String Nat)) =
      some (Except.error "boom", ⟨[Except.ok 5], []⟩) ∧
    FutureQueue.complete
        (⟨[Except.ok 5], []⟩ : FutureQueue (Except String Nat)) 0 =
      some ⟨[], [Except.ok 5]⟩ :=
  ⟨(C8_future_queue_get _).2.1 _ _ rfl, (C8_future_queue_get _).2.2.2 0 _ rfl⟩

/-! ### C4 — trigger semantics -/

/-- C4: for an event whose target id is absent from the global
`_event_handlers` table, `trigger` returns normally with the layout state
untouched and no handler invoked; for a present target the handler is
invoked with `event.data`, a successful invocation returns the state
unchanged, and a failure inside the handler propagates verbatim to the
caller of `trigger`. -/
theorem C4_trigger_dispatch {D E : Type} (call : Cb → List D → Except E Unit)
    (s : LayoutState Cb) (ev : LayoutEvent D) :
    (pyLookup s.event_handlers ev.target = none →
      Layout.trigger call s ev = .ok s) ∧
    (∀ h, pyLookup s.event_handlers ev.target = some h →
      (EventHandler.invoke call h ev.data = .ok () →
        Layout.trigger call s ev = .ok s) ∧
      (∀ err, EventHandler.invoke call h ev.data = .error err →
        Layout.trigger call s ev = .error err)) := by
  constructor
  · intro hnone
    simp [Layout.trigger, hnone]
  · intro h hsome
    constructor
    · intro hok
      simp [Layout.trigger, hsome, hok]
    · intro err herr
      simp [Layout.trigger, hsome, herr]

/-- Witness for C4: a stale target (99) is silently discarded, a failing
handler (2) propagates its own failure, a succeeding handler (1) leaves the
state unchanged. -/
theorem C4_trigger_dispatch_witness :
    Layout.trigger exCall exTrigSt ⟨99, [0]⟩ = .ok exTrigSt ∧
    Layout.trigger exCall exTrigSt ⟨2, [0]⟩ = .error "handler failure" ∧
    Layout.trigger exCall exTrigSt ⟨1, [0]⟩ = .ok exTrigSt :=
  ⟨(C4_trigger_dispatch exCall exTrigSt ⟨99, [0]⟩).1 rfl,
   ((C4_trigger_dispatch exCall exTrigSt ⟨2, [0]⟩).2 _ rfl).2 _ rfl,
   ((C4_trigger_dispatch exCall exTrigSt ⟨1, [0]⟩).2 _ rfl).1 rfl⟩

/-! ### C5 — render consumes one completion and returns the root model -/

/-- C5: at resource initialization the root element's render is the one task
enqueued into the rendering queue (and nothing has completed, so `render()`
suspends); `render()` consumes exactly one completion from the queue and
returns `element_states[root.id].model`; completing the initial root render
task settles exactly one completion, so the first `render()` call unblocks
as soon as the initial root render completes. -/
theorem C5_render_unblocks (root : Element Cb)
    (aH : List (List (String × AttrValue Cb))) (nh0 : Nat)
    (rt : LayoutRuntime Cb) :
    (Layout.start root aH nh0).pendingRenders = [root] ∧
    Layout.render (Layout.start root aH nh0) = none ∧
    (∀ v rest st, rt.doneRenders = v :: rest →
      pyLookup rt.st.element_states rt.root.id = some st →
      Layout.render rt = some (st.model, { rt with doneRenders := rest })) ∧
    (∀ fuel rt', Layout.completeRender (Layout.start root aH nh0) 0 fuel = some rt' →
      rt'.doneRenders.length = 1 ∧ rt'.pendingRenders = []) := by
  refine ⟨rfl, rfl, ?_, ?_⟩
  · intro v rest st h1 h2
    simp [Layout.render, h1, h2]
  · intro fuel rt' h
    simp only [Layout.completeRender, Layout.start] at h
    cases hre : render_element fuel (create_element_state ⟨[], [], aH, [], nh0, 0, []⟩ root) root with
    | none => simp [hre] at h
    | some p =>
      simp [hre] at h
      cases p with
      | mk s' addr =>
        simp at h
        subst h
        exact ⟨rfl, rfl⟩

/-- Witness for C5: completing the initial root render of `exRoot` yields
`exRT1`, and the first `render()` then returns the root's model dict
(address 0). -/
theorem C5_render_unblocks_witness :
    Layout.completeRender (Layout.start exRoot [] 100) 0 6 = some exRT1 ∧
    Layout.render exRT1 = some (0, { exRT1 with doneRenders := [] }) :=
  ⟨exRT1_eval,
   (C5_render_unblocks exRoot [] 100 exRT1).2.2.1 0 [] ⟨0, exRoot, [], [], 0⟩
     rfl rfl⟩

/-! ### C1 — the event-handler table / element-state disjoint-union invariant -/

/-- C1 (code-bug evaluation): rendering `exE` — whose returned model carries
event handlers at two nesting levels — succeeds and leaves the global
`eventHandlers` table with keys `[10, 20]` while the only mounted
`ElementState` records `event_handler_ids = [20]`.  Handler id 10 is
registered but owned by no mounted element: the `clear()` at line 241 of
`_render_model_event_handlers` wipes the outer dict's ids from the state's
set (but not from the global table) when the nested child dict is resolved,
so the spec invariant `eventHandlers keys = disjoint union of
elementStates[*].eventHandlerIds` fails. -/
theorem C1_orphaned_handler_eval :
    (render_element 6 exInit exE).isSome = true ∧
    (render_element 6 exInit exE).elim []
      (fun p => pyKeys p.1.event_handlers) = [10, 20] ∧
    (render_element 6 exInit exE).elim []
      (fun p => p.1.element_states.map (fun q => (q.1, q.2.event_handler_ids)))
      = [("E", [20])] :=
  ⟨rfl, rfl, rfl⟩

/-! ### C6 — unmounting an element state -/

/-- C6: a successful unmount of a mounted element state fires that state's
`elementWillUnmount` exactly once (one more occurrence of its trace event
than before), removes every id in its `event_handler_ids` from the global
`eventHandlers` table, recursively unmounts all of its recorded children
(their entries are gone and their own `elementWillUnmount` fired), removes
the state's own entry from `elementStates`, and afterwards no handler id
registered by the unmounted element or by any element whose entry this
unmount deleted (its descendants) remains in the global table. -/
theorem C6_unmount_element_state (n : Nat) (s : LayoutState Cb)
    (st : ElementState Cb) (s' : LayoutState Cb)
    (hwf : ∀ k v, pyLookup s.element_states k = some v → v.element_obj.id = k)
    (hst : pyLookup s.element_states st.element_obj.id = some st)
    (h : unmount_element_state n s st = some s') :
    s'.trace.count
        (TraceEv.willUnmount st.element_obj.id st.life_cycle_hook) =
      s.trace.count
        (TraceEv.willUnmount st.element_obj.id st.life_cycle_hook) + 1 ∧
    (∀ hid ∈ st.event_handler_ids, pyLookup s'.event_handlers hid = none) ∧
    (∀ c ∈ st.child_elements_ids, pyLookup s'.element_states c = none ∧
      ∃ hk, TraceEv.willUnmount c hk ∈ s'.trace) ∧
    pyLookup s'.element_states st.element_obj.id = none ∧
    (∀ k v, pyLookup s.element_states k = some v →
      pyLookup s'.element_states k = none →
      ∀ hid ∈ v.event_handler_ids, pyLookup s'.event_handlers hid = none) := by
  obtain ⟨rest, hUA, hcov⟩ := (unmount_spec n).1 s st s' hwf hst h
  obtain ⟨t1, nd1, src1, fr1, del1, sh1, rm1, _, _, _, _⟩ := hUA
  have hheadmem :
      (st.element_obj.id, st.life_cycle_hook) ∈
        (st.element_obj.id, st.life_cycle_hook) :: rest :=
    List.mem_cons_self _ _
  have hownnot : st.element_obj.id ∉ rest.map Prod.fst := by
    have := nd1
    simp only [List.map_cons] at this
    exact (List.nodup_cons.mp this).1
  refine ⟨?_, ?_, ?_, ?_, ?_⟩
  · rw [t1, List.count_append, List.map_cons, List.count_cons_self]
    have hzero : (rest.map fun p => TraceEv.willUnmount p.1 p.2).count
        (TraceEv.willUnmount st.element_obj.id st.life_cycle_hook) = 0 := by
      rw [List.count_eq_zero]
      intro hmem
      obtain ⟨p, hp, hpe⟩ := List.mem_map.mp hmem
      have : p.1 = st.element_obj.id := by
        injection hpe
      exact hownnot (this ▸ List.mem_map.mpr ⟨p, hp, rfl⟩)
    omega
  · intro hid hhid
    exact rm1 _ hheadmem st hst hid hhid
  · intro c hc
    have hcm := hcov c hc
    refine ⟨del1 c hcm, ?_⟩
    obtain ⟨p, hp, hpc⟩ := List.mem_map.mp hcm
    refine ⟨p.2, ?_⟩
    rw [t1]
    refine List.mem_append_right _ (List.mem_map.mpr ⟨p, hp, ?_⟩)
    rw [hpc]
  · exact del1 _ (List.mem_map.mpr ⟨_, hheadmem, rfl⟩)
  · intro k v hv hdel hid hhid
    have hkm : k ∈ ((st.element_obj.id, st.life_cycle_hook) :: rest).map
        Prod.fst := by
      by_contra hnot
      rw [fr1 k hnot, hv] at hdel
      cases hdel
    obtain ⟨p, hp, hpk⟩ := List.mem_map.mp hkm
    exact rm1 p hp v (hpk ▸ hv) hid hhid

/-! ### C2 — child element states across parent re-renders -/

/-- C2 (counterexample): re-rendering parent `P` while its model still
references child `C` does **not** preserve `C`'s ElementState: the second
render of `exP` fires `C`'s `elementWillUnmount` (on hook 1, which had
served the first render) and mounts a fresh state whose LifeCycleHook is a
different object (hook 2). -/
theorem C2_counterexample_child_state_not_preserved :
    render_element 6 exInit exP = some (exS1, 0) ∧
    render_element 6 exS1 exP = some (exS2, 0) ∧
    (pyLookup exS1.element_states "C").map (·.life_cycle_hook) = some 1 ∧
    (pyLookup exS2.element_states "C").map (·.life_cycle_hook) = some 2 ∧
    TraceEv.willUnmount "C" 1 ∈ exS2.trace ∧
    TraceEv.willUnmount "C" 1 ∉ exS1.trace :=
  ⟨exS1_eval, exS2_eval, rfl, rfl, by decide, by decide⟩

/-- C2 (amended): re-rendering a mounted element unconditionally unmounts
every child recorded on its state — firing each recorded child's
`elementWillUnmount` — before the new model is resolved; children the new
model still references are then mounted afresh (with fresh LifeCycleHooks,
as the counterexample shows).  A child's state is destroyed on *every*
re-render of its parent, not only when the parent stops referencing it. -/
theorem C2_amended_rerender_unmounts_recorded_children
    (n : Nat) (s : LayoutState Cb) (e : Element Cb) (st : ElementState Cb)
    (p : LayoutState Cb × Nat)
    (hwf : ∀ k v, pyLookup s.element_states k = some v → v.element_obj.id = k)
    (hst : pyLookup s.element_states e.id = some st)
    (h : render_element n s e = some p) :
    ∀ c ∈ st.child_elements_ids, ∃ stc,
      pyLookup s.element_states c = some stc ∧
      TraceEv.willUnmount c stc.life_cycle_hook ∈ p.1.trace := by
  cases n with
  | zero => simp [render_element] at h
  | succ n =>
    have hsome : (pyLookup s.element_states e.id).isSome = true := by
      rw [hst]
      rfl
    simp only [render_element, Option.bind_eq_some] at h
    rw [hsome] at h
    simp only [if_true] at h
    obtain ⟨st', hst', s2, hc, s3, hu, p4, h4, h⟩ := h
    cases h
    rw [hst] at hst'
    injection hst' with hstq
    subst hstq
    have heid : st.element_obj.id = e.id := hwf e.id st hst
    obtain ⟨t2, a2, m2, nh2, nk2, sh2, hall2, fr2, own2⟩ :=
      clear_spec _ st s2 hc
    have hwf2 : ∀ k v, pyLookup s2.element_states k = some v →
        v.element_obj.id = k := by
      intro k v hv
      by_cases hk : k = st.element_obj.id
      · subst hk
        rw [own2] at hv
        have hst1 : pyLookup
            ({ s with trace := s.trace ++
              [TraceEv.willRender e.id st.life_cycle_hook] }
              : LayoutState Cb).element_states st.element_obj.id
            = some st := by
          show pyLookup s.element_states st.element_obj.id = some st
          rw [heid]
          exact hst
        rw [hst1] at hv
        simp only [Option.map_some'] at hv
        cases hv
        rfl
      · rw [fr2 k hk] at hv
        exact hwf k v hv
    obtain ⟨evs, tC, ndC, srcC, frC, ownC, delC, shC, rmC, aC, mC, nhC,
      nkC, covC⟩ := (unmount_spec n).2.1 s2 st s3 hwf2 hu
    have hlift : ∀ ev, ev ∈ s3.trace → ev ∈ p4.1.trace := by
      intro ev hev
      obtain ⟨⟨Δ4, hΔ4⟩, _, _, _⟩ :=
        (mono_spec n).2.2.2.2.1 s3 e.id (rawModelOf e) p4 h4
      rw [hΔ4]
      exact List.mem_append_left _ hev
    intro c hc'
    have hcm : c ∈ evs.map Prod.fst := covC c hc'
    obtain ⟨pr, hpr, hprc⟩ := List.mem_map.mp hcm
    obtain ⟨v, hv, hhook⟩ := srcC pr hpr
    have hmem3 : TraceEv.willUnmount pr.1 pr.2 ∈ s3.trace := by
      rw [tC]
      exact List.mem_append_right _ (List.mem_map.mpr ⟨pr, hpr, rfl⟩)
    by_cases hceq : pr.1 = st.element_obj.id
    · refine ⟨st, ?_, ?_⟩
      · rw [← hprc, hceq, heid]
        exact hst
      · have hv' : v = { st with event_handler_ids := [] } := by
          rw [hceq, own2] at hv
          have hst1 : pyLookup
              ({ s with trace := s.trace ++
                [TraceEv.willRender e.id st.life_cycle_hook] }
                : LayoutState Cb).element_states st.element_obj.id
              = some st := by
            show pyLookup s.element_states st.element_obj.id = some st
            rw [heid]
            exact hst
          rw [hst1] at hv
          simp only [Option.map_some'] at hv
          injection hv with hv
          exact hv.symm
        have hh : st.life_cycle_hook = pr.2 := by
          rw [hv'] at hhook
          exact hhook
        rw [← hprc, hh]
        exact List.mem_append_left _ (hlift _ hmem3)
    · refine ⟨v, ?_, ?_⟩
      · rw [← hprc, ← fr2 pr.1 hceq]
        exact hv
      · rw [← hprc, hhook]
        exact List.mem_append_left _ (hlift _ hmem3)

/-- Witness for the amended C2 at the concrete re-render of `exP`. -/
theorem C2_amended_rerender_witness :
    pyLookup exS1.element_states "P" = some exPState ∧
    ∃ stc, pyLookup exS1.element_states "C" = some stc ∧
      TraceEv.willUnmount "C" stc.life_cycle_hook ∈ exS2.trace :=
  ⟨rfl, C2_amended_rerender_unmounts_recorded_children 6 exS1 exP exPState
    (exS2, 0) (wf_of_all exS1 (by decide)) rfl exS2_eval "C" (by decide)⟩

/-! ### C9 — re-rendering a mounted element reuses its state in place -/

/-- C9: re-rendering an element whose id is already in `elementStates`
reuses the existing ElementState: no fresh state is created — the render
begins by firing `elementWillRender` on the *existing* LifeCycleHook and
ends with `elementDidRender` on that same hook (hook cells are not
destroyed) — the returned model dict is the state's pre-existing `model`
object (`p.2 = st.model`), and that dict's contents are replaced in place
with the newly resolved model (the final heap is the post-render heap with
the resolved model written at the existing address). -/
theorem C9_rerender_in_place (n : Nat) (s : LayoutState Cb) (e : Element Cb)
    (st : ElementState Cb) (p : LayoutState Cb × Nat)
    (hst : pyLookup s.element_states e.id = some st)
    (h : render_element (n + 1) s e = some p) :
    p.2 = st.model ∧
    (∃ Δ, p.1.trace =
      s.trace ++ TraceEv.willRender e.id st.life_cycle_hook :: Δ) ∧
    (∃ Δ, p.1.trace = Δ ++ [TraceEv.didRender e.id st.life_cycle_hook]) ∧
    (∃ s2 s3 q,
      clear_element_state_event_handlers
        { s with trace := s.trace ++
          [TraceEv.willRender e.id st.life_cycle_hook] } st = some s2 ∧
      unmount_element_state_children n s2 st = some s3 ∧
      render_model n s3 e.id (rawModelOf e) = some q ∧
      p.1.modelHeap = q.1.modelHeap.set st.model q.2 ∧
      (st.model < s.modelHeap.length →
        p.1.modelHeap.get? st.model = some q.2)) := by
  have hsome : (pyLookup s.element_states e.id).isSome = true := by
    rw [hst]
    rfl
  simp only [render_element, Option.bind_eq_some] at h
  rw [hsome] at h
  simp only [if_true] at h
  obtain ⟨st', hst', s2, hc, s3, hu, p4, h4, h⟩ := h
  cases h
  rw [hst] at hst'
  injection hst' with hstq
  subst hstq
  obtain ⟨t2, a2, m2, nh2, nk2, _, _, _, _⟩ := clear_spec _ st s2 hc
  obtain ⟨⟨Δ3, hΔ3⟩, hm3, _, _⟩ := (mono_spec n).2.1 s2 st s3 hu
  obtain ⟨⟨Δ4, hΔ4⟩, hm4, _, _⟩ :=
    (mono_spec n).2.2.2.2.1 s3 e.id (rawModelOf e) p4 h4
  refine ⟨rfl, ?_, ?_, s2, s3, p4, hc, hu, h4, rfl, ?_⟩
  · refine ⟨Δ3 ++ Δ4 ++ [TraceEv.didRender e.id st.life_cycle_hook], ?_⟩
    show p4.1.trace ++ [TraceEv.didRender e.id st.life_cycle_hook]
        = s.trace ++ TraceEv.willRender e.id st.life_cycle_hook ::
          (Δ3 ++ Δ4 ++ [TraceEv.didRender e.id st.life_cycle_hook])
    rw [hΔ4, hΔ3, t2]
    simp
  · exact ⟨p4.1.trace, rfl⟩
  · intro hlt
    have hlt4 : st.model < p4.1.modelHeap.length := by
      have h2 : s2.modelHeap.length = s.modelHeap.length := by
        rw [m2]
      omega
    show (p4.1.modelHeap.set st.model p4.2).get? st.model = some p4.2
    rw [List.get?_eq_getElem?]
    exact List.getElem?_set_eq_of_lt _ hlt4

/-- Witness for C9 at the concrete re-render of `exP` in `exS1`. -/
theorem C9_rerender_in_place_witness :
    pyLookup exS1.element_states "P" = some exPState ∧
    (exS2, 0).2 = exPState.model ∧
    (∃ Δ, exS2.trace = exS1.trace ++ TraceEv.willRender "P" 0 :: Δ) := by
  have hm := C9_rerender_in_place 5 exS1 exP exPState (exS2, 0) rfl exS2_eval
  exact ⟨rfl, hm.1, hm.2.1⟩

/-- Witness for C6: unmounting the mounted `P` tree of `exS1` (parent `P`
with child `C`) removes both entries. -/
theorem C6_unmount_element_state_witness :
    unmount_element_state 6 exS1 exPState = some exS1Unm ∧
    pyLookup exS1Unm.element_states "P" = none ∧
    pyLookup exS1Unm.element_states "C" = none := by
  have hwf : ∀ k v, pyLookup exS1.element_states k = some v →
      v.element_obj.id = k :=
    wf_of_all exS1 (by decide)
  have hmain := C6_unmount_element_state 6 exS1 exPState exS1Unm hwf
    (by rfl) exS1Unm_eval
  exact ⟨exS1Unm_eval, hmain.2.2.2.1, (hmain.2.2.1 "C" (by decide)).1⟩

/-! ### C10 — the emitted model shares and mutates the host attributes dict -/

/-- A key whose first binding in the iteration snapshot is callable is popped
by the attribute scan, and absence from the attributes dict is preserved by
the rest of the scan. -/
theorem scanAttrs_removes_none :
    ∀ (items : List (String × AttrValue Cb)) nid hs attrs (k : String),
      pyLookup attrs k = none →
      pyLookup (scanAttrs nid hs attrs items).2.2 k = none := by
  intro items nid hs attrs k hnone
  cases hres : pyLookup (scanAttrs nid hs attrs items).2.2 k with
  | none => rfl
  | some w =>
    have := scanAttrs_attrs_shrink items nid hs attrs k w hres
    rw [hnone] at this
    cases this

theorem scanAttrs_removes_callable :
    ∀ (items : List (String × AttrValue Cb)) nid hs attrs (k : String) v,
      pyLookup attrs k = some v → v.callable = true →
      pyLookup items k = some v →
      pyLookup (scanAttrs nid hs attrs items).2.2 k = none := by
  intro items
  induction items with
  | nil =>
    intro nid hs attrs k v _ _ hitems
    cases hitems
  | cons pr rest ih =>
    intro nid hs attrs k v hattrs hcall hitems
    obtain ⟨k0, w⟩ := pr
    simp only [pyLookup] at hitems
    by_cases h0 : k0 = k
    · rw [if_pos h0] at hitems
      subst h0
      injection hitems with hwv
      subst hwv
      cases w with
      | plain t => simp [AttrValue.callable] at hcall
      | cb f =>
        simp only [scanAttrs]
        exact scanAttrs_removes_none _ _ _ _ _ (pyLookup_pyRemove_self _ _)
      | handler hh =>
        simp only [scanAttrs]
        exact scanAttrs_removes_none _ _ _ _ _ (pyLookup_pyRemove_self _ _)
    · rw [if_neg h0] at hitems
      cases w with
      | plain t =>
        simp only [scanAttrs]
        exact ih _ _ _ _ _ hattrs hcall hitems
      | cb f =>
        simp only [scanAttrs]
        refine ih _ _ _ _ _ ?_ hcall hitems
        rw [pyLookup_pyRemove_ne _ _ _ (fun he => h0 he.symm)]
        exact hattrs
      | handler hh =>
        simp only [scanAttrs]
        refine ih _ _ _ _ _ ?_ hcall hitems
        rw [pyLookup_pyRemove_ne _ _ _ (fun he => h0 he.symm)]
        exact hattrs

/-- `_render_model_event_handlers` pops every callable entry from the host's
attributes dict (the dict at the model's `attributes` address). -/
theorem render_model_event_handlers_strips (s : LayoutState Cb)
    (eid : String) (m : RawModel Cb)
    (q : LayoutState Cb × List (String × Descriptor)) (a : Nat)
    (d : List (String × AttrValue Cb))
    (h : render_model_event_handlers s eid m = some q)
    (hma : m.attributes = some a) (hd : s.attrHeap.get? a = some d) :
    ∀ k v, pyLookup d k = some v → v.callable = true →
      ∃ d', q.1.attrHeap.get? a = some d' ∧ pyLookup d' k = none := by
  rcases m with ⟨mt, ma, me, mc⟩
  simp only [RawModel.attributes] at hma
  subst hma
  simp only [render_model_event_handlers, RawModel.attributes,
    RawModel.eventHandlers, Option.bind_eq_some] at h
  obtain ⟨q', hq', h⟩ := h
  rw [Option.map_eq_some'] at hq'
  obtain ⟨attrs, hget, hq'⟩ := hq'
  cases hq'
  cases h
  rw [hd] at hget
  injection hget with hget
  subst hget
  intro k v hv hcall
  have hlt : a < s.attrHeap.length := by
    by_contra hge
    rw [List.get?_eq_getElem?, List.getElem?_eq_none (le_of_not_lt hge)]
      at hd
    cases hd
  have hset : ∀ R : List (String × AttrValue Cb),
      (s.attrHeap.set a R).get? a = some R := by
    intro R
    rw [List.get?_eq_getElem?]
    exact List.getElem?_set_eq_of_lt _ hlt
  exact ⟨_, hset _, scanAttrs_removes_callable d _ _ d k v hv hcall hv⟩

/-- C10: `_render_model` shallow-copies the model dict, so the emitted
model's `attributes` is the very same dict object (same heap address) as the
input model's `attributes`; that dict is mutated — every callable entry is
popped from the host's own attributes dict during handler lifting and never
re-added, so after resolution the host's dict no longer contains those
callable entries. -/
theorem C10_attributes_shared_and_stripped (n : Nat) (s : LayoutState Cb)
    (eid : String) (m : RawModel Cb) (p : LayoutState Cb × RModel)
    (h : render_model n s eid m = some p) :
    p.2.attributes = m.attributes ∧
    (∀ a, m.attributes = some a →
      ∀ d, s.attrHeap.get? a = some d →
      ∀ k v, pyLookup d k = some v → v.callable = true →
        ∃ d', p.1.attrHeap.get? a = some d' ∧ pyLookup d' k = none) := by
  cases n with
  | zero => simp [render_model] at h
  | succ n =>
    rcases m with ⟨mt, ma, me, mc⟩
    cases mc with
    | none =>
      simp only [render_model, RawModel.children, Option.bind_eq_some] at h
      obtain ⟨q, hq, h⟩ := h
      cases h
      refine ⟨by simp [RModel.attributes, RawModel.attributes], ?_⟩
      intro a hma d hd k v hv hcall
      exact render_model_event_handlers_strips s eid _ q a d hq hma hd k v
        hv hcall
    | some cs =>
      simp only [render_model, RawModel.children, Option.bind_eq_some] at h
      obtain ⟨q, hq, r, hr, h⟩ := h
      cases h
      refine ⟨by simp [RModel.attributes, RawModel.attributes], ?_⟩
      intro a hma d hd k v hv hcall
      obtain ⟨d1, hd1, hnone1⟩ := render_model_event_handlers_strips s eid _
        q a d hq hma hd k v hv hcall
      obtain ⟨_, _, hlen, hshrink⟩ :=
        (mono_spec n).2.2.2.2.2 q.1 eid (normalizeChildren cs) r hr
      have hlt : a < r.1.attrHeap.length := by
        have : a < q.1.attrHeap.length := by
          by_contra hge
          rw [List.get?_eq_getElem?,
            List.getElem?_eq_none (le_of_not_lt hge)] at hd1
          cases hd1
        omega
      cases hz : r.1.attrHeap.get? a with
      | none =>
        rw [List.get?_eq_getElem?, List.getElem?_eq_none_iff] at hz
        omega
      | some dz =>
        refine ⟨dz, rfl, ?_⟩
        obtain ⟨d1', hd1', hsub⟩ := hshrink a dz hz
        rw [hd1'] at hd1
        injection hd1 with hd1
        subst hd1
        cases hlk : pyLookup dz k with
        | none => rfl
        | some w =>
          have := hsub k w hlk
          rw [hnone1] at this
          cases this

/-- Witness for C10 at the concrete button model: the emitted model's
`attributes` is address 0 — the host's own dict — and `onClick` has been
popped from it. -/
theorem C10_attributes_shared_and_stripped_witness :
    render_model 6 exBtnState "B" exBtnModel = some exBtnOut ∧
    exBtnOut.2.attributes = exBtnModel.attributes ∧
    (∃ d', exBtnOut.1.attrHeap.get? 0 = some d' ∧
      pyLookup d' "onClick" = none) := by
  have hm := C10_attributes_shared_and_stripped 6 exBtnState "B" exBtnModel
    exBtnOut exBtnOut_eval
  exact ⟨exBtnOut_eval, hm.1,
    hm.2 0 rfl exAttrs rfl "onClick" (.cb 7) rfl rfl⟩

/-! ### C3: callable attribute lifting -/

theorem pyLookup_mem_keys (d : List (κ × ν)) (k : κ) (v : ν)
    (h : pyLookup d k = some v) : k ∈ pyKeys d :=
  List.mem_map.mpr ⟨(k, v), pyLookup_mem d k v h, rfl⟩

theorem pyLookup_eq_none_of_not_mem_keys (d : List (κ × ν)) (k : κ)
    (h : k ∉ pyKeys d) : pyLookup d k = none := by
  cases hres : pyLookup d k with
  | none => rfl
  | some v => exact absurd (pyLookup_mem_keys d k v hres) h

theorem mem_of_mem_pyInsert (d : List (κ × ν)) (k : κ) (v : ν) :
    ∀ q ∈ pyInsert d k v, q = (k, v) ∨ q ∈ d := by
  induction d with
  | nil =>
    intro q hq
    simp only [pyInsert, List.mem_singleton] at hq
    exact Or.inl hq
  | cons pr t ih =>
    obtain ⟨k', v'⟩ := pr
    intro q hq
    simp only [pyInsert] at hq
    by_cases hk : k' = k
    · rw [if_pos hk] at hq
      rcases List.mem_cons.mp hq with hq | hq
      · exact Or.inl hq
      · exact Or.inr (List.mem_cons_of_mem _ hq)
    · rw [if_neg hk] at hq
      rcases List.mem_cons.mp hq with hq | hq
      · exact Or.inr (by rw [hq]; exact List.mem_cons_self _ _)
      · rcases ih q hq with h1 | h1
        · exact Or.inl h1
        · exact Or.inr (List.mem_cons_of_mem _ h1)

theorem mem_map_pyInsert {μ : Type} (f : ν → μ) (d : List (κ × ν)) (k : κ)
    (v : ν) (x : μ) (hx : x ∈ (pyInsert d k v).map fun q => f q.2) :
    x = f v ∨ x ∈ d.map fun q => f q.2 := by
  rcases List.mem_map.mp hx with ⟨q, hq, hfq⟩
  rcases mem_of_mem_pyInsert d k v q hq with h1 | h1
  · subst h1
    exact Or.inl hfq.symm
  · exact Or.inr (List.mem_map.mpr ⟨q, h1, hfq⟩)

theorem mem_keys_pyInsert (d : List (κ × ν)) (k : κ) (v : ν) (x : κ)
    (hx : x ∈ pyKeys (pyInsert d k v)) : x = k ∨ x ∈ pyKeys d := by
  simp only [pyKeys] at hx ⊢
  rcases List.mem_map.mp hx with ⟨q, hq, hfq⟩
  rcases mem_of_mem_pyInsert d k v q hq with h1 | h1
  · subst h1
    exact Or.inl hfq.symm
  · exact Or.inr (List.mem_map.mpr ⟨q, h1, hfq⟩)

theorem pyInsert_keys_nodup (d : List (κ × ν)) (k : κ) (v : ν)
    (hnd : (pyKeys d).Nodup) : (pyKeys (pyInsert d k v)).Nodup := by
  induction d with
  | nil => simp [pyInsert, pyKeys]
  | cons pr t ih =>
    obtain ⟨k', v'⟩ := pr
    simp only [pyKeys, List.map_cons, List.nodup_cons] at hnd
    obtain ⟨hhd, htl⟩ := hnd
    simp only [pyInsert]
    by_cases hk : k' = k
    · rw [if_pos hk]
      subst hk
      simp only [pyKeys, List.map_cons, List.nodup_cons]
      exact ⟨hhd, htl⟩
    · rw [if_neg hk]
      simp only [pyKeys, List.map_cons, List.nodup_cons]
      refine ⟨?_, ih htl⟩
      intro hmem
      rcases mem_keys_pyInsert t k v k' hmem with h1 | h1
      · exact hk h1
      · exact hhd h1

theorem pyInsert_map_append_nodup {μ : Type} (f : ν → μ) :
    ∀ (d : List (κ × ν)) (k : κ) (v : ν) (L : List μ),
      ((d.map fun q => f q.2) ++ L).Nodup →
      f v ∉ (d.map fun q => f q.2) ++ L →
      (((pyInsert d k v).map fun q => f q.2) ++ L).Nodup := by
  intro d
  induction d with
  | nil =>
    intro k v L hnd hnew
    simp only [List.map_nil, List.nil_append] at hnd hnew
    simp only [pyInsert, List.map_cons, List.map_nil, List.cons_append,
      List.nil_append]
    exact List.nodup_cons.mpr ⟨hnew, hnd⟩
  | cons pr t ih =>
    obtain ⟨k', v'⟩ := pr
    intro k v L hnd hnew
    simp only [List.map_cons, List.cons_append, List.nodup_cons] at hnd
    obtain ⟨hhd, htl⟩ := hnd
    simp only [List.map_cons, List.cons_append, List.mem_cons] at hnew
    push_neg at hnew
    obtain ⟨hne, hnew⟩ := hnew
    simp only [pyInsert]
    by_cases hk : k' = k
    · rw [if_pos hk]
      simp only [List.map_cons, List.cons_append, List.nodup_cons]
      exact ⟨hnew, htl⟩
    · rw [if_neg hk]
      simp only [List.map_cons, List.cons_append, List.nodup_cons]
      refine ⟨?_, ih k v L htl hnew⟩
      intro hmem
      rcases List.mem_append.mp hmem with h1 | h1
      · rcases mem_map_pyInsert f t k v _ h1 with h2 | h2
        · exact hne h2.symm
        · exact hhd (List.mem_append_left _ h2)
      · exact hhd (List.mem_append_right _ h1)

theorem pyUpdate_cons (d : List (κ × ν)) (q : κ × ν) (rest : List (κ × ν)) :
    pyUpdate d (q :: rest) = pyUpdate (pyInsert d q.1 q.2) rest := rfl

theorem pyUpdate_lookup_not_mem :
    ∀ (entries : List (κ × ν)) (d : List (κ × ν)) (k : κ),
      k ∉ pyKeys entries →
      pyLookup (pyUpdate d entries) k = pyLookup d k := by
  intro entries
  induction entries with
  | nil => intro d k _; rfl
  | cons q rest ih =>
    intro d k hk
    simp only [pyKeys, List.map_cons, List.mem_cons] at hk
    push_neg at hk
    obtain ⟨hne, hk⟩ := hk
    rw [pyUpdate_cons, ih (pyInsert d q.1 q.2) k (by simpa [pyKeys] using hk)]
    exact pyLookup_pyInsert_ne _ _ _ _ hne

theorem pyUpdate_lookup_of_mem :
    ∀ (entries : List (κ × ν)) (d : List (κ × ν)) (k : κ) (v : ν),
      (pyKeys entries).Nodup → (k, v) ∈ entries →
      pyLookup (pyUpdate d entries) k = some v := by
  intro entries
  induction entries with
  | nil => intro d k v _ hmem; cases hmem
  | cons q rest ih =>
    intro d k v hnd hmem
    simp only [pyKeys, List.map_cons, List.nodup_cons] at hnd
    obtain ⟨hhd, htl⟩ := hnd
    rw [pyUpdate_cons]
    rcases List.mem_cons.mp hmem with hmem | hmem
    · subst hmem
      have hcond : k ∉ pyKeys rest := by simpa [pyKeys] using hhd
      rw [pyUpdate_lookup_not_mem rest _ k hcond]
      exact pyLookup_pyInsert_self d k v
    · exact ih _ k v (by simpa [pyKeys] using htl) hmem

theorem pyLookup_descs (d : List (String × EventHandler Cb)) (k : String) :
    pyLookup (d.map fun q => (q.1, Descriptor.mk q.2.id)) k =
      (pyLookup d k).map fun h0 => Descriptor.mk h0.id := by
  induction d with
  | nil => rfl
  | cons q t ih =>
    obtain ⟨k', v'⟩ := q
    simp only [List.map_cons, pyLookup]
    by_cases hk : k' = k
    · rw [if_pos hk, if_pos hk]
      rfl
    · rw [if_neg hk, if_neg hk]
      exact ih

theorem LiftedHandler.mono {v : AttrValue Cb} {eh : EventHandler Cb}
    {n n' : Nat} (hnn : n ≤ n') (h : LiftedHandler n' v eh) :
    LiftedHandler n v eh := by
  cases v with
  | handler h0 => exact h
  | cb f =>
    simp only [LiftedHandler] at h ⊢
    exact ⟨h.1, le_trans hnn h.2⟩
  | plain t => exact h.elim

/-- Keys not listed among the scan's items keep their handler-map binding
(used for the strict left-to-right, single-visit nature of
`for k, v in list(attrs.items())`). -/
theorem scanAttrs_handlers_frame :
    ∀ (items : List (String × AttrValue Cb)) (nid : Nat) hs attrs
      (k : String),
      k ∉ items.map Prod.fst →
      pyLookup (scanAttrs nid hs attrs items).2.1 k = pyLookup hs k := by
  intro items
  induction items with
  | nil => intro nid hs attrs k _; rfl
  | cons pr rest ih =>
    obtain ⟨k0, w⟩ := pr
    intro nid hs attrs k hk
    simp only [List.map_cons, List.mem_cons] at hk
    push_neg at hk
    obtain ⟨hne, hk⟩ := hk
    cases w with
    | plain t =>
      simp only [scanAttrs]
      exact ih _ _ _ _ hk
    | cb f =>
      simp only [scanAttrs]
      rw [ih _ _ _ _ hk]
      exact pyLookup_pyInsert_ne _ _ _ _ hne
    | handler h0 =>
      simp only [scanAttrs]
      rw [ih _ _ _ _ hk]
      exact pyLookup_pyInsert_ne _ _ _ _ hne

/-- Every callable item of the scanned attributes dict ends up in the
handler map under its own key, in the `LiftedHandler` shape; in particular
the attribute-derived handler overwrites any handler the map already held
under that key. -/
theorem scanAttrs_handlers_key :
    ∀ (items : List (String × AttrValue Cb)) (nid : Nat) hs attrs
      (k : String) (v : AttrValue Cb),
      (items.map Prod.fst).Nodup →
      pyLookup items k = some v → v.callable = true →
      ∃ eh, pyLookup (scanAttrs nid hs attrs items).2.1 k = some eh ∧
        LiftedHandler nid v eh := by
  intro items
  induction items with
  | nil => intro nid hs attrs k v _ hit _; cases hit
  | cons pr rest ih =>
    obtain ⟨k0, w⟩ := pr
    intro nid hs attrs k v hnd hit hcall
    simp only [List.map_cons, List.nodup_cons] at hnd
    obtain ⟨hk0, hnd⟩ := hnd
    simp only [pyLookup] at hit
    by_cases h0 : k0 = k
    · rw [if_pos h0] at hit
      injection hit with hwv
      subst hwv
      subst h0
      cases w with
      | plain t => simp [AttrValue.callable] at hcall
      | cb f =>
        simp only [scanAttrs]
        refine ⟨⟨nid, [f]⟩, ?_, ?_⟩
        · rw [scanAttrs_handlers_frame rest _ _ _ _ hk0]
          exact pyLookup_pyInsert_self _ _ _
        · exact ⟨rfl, le_refl nid⟩
      | handler hh =>
        simp only [scanAttrs]
        refine ⟨hh, ?_, ?_⟩
        · rw [scanAttrs_handlers_frame rest _ _ _ _ hk0]
          exact pyLookup_pyInsert_self _ _ _
        · exact rfl
    · rw [if_neg h0] at hit
      cases w with
      | plain t =>
        simp only [scanAttrs]
        exact ih _ _ _ _ _ hnd hit hcall
      | cb f =>
        simp only [scanAttrs]
        obtain ⟨eh, hlook, hlift⟩ := ih (nid + 1)
          (pyInsert hs k0 ⟨nid, [f]⟩) (pyRemove attrs k0) k v hnd hit hcall
        exact ⟨eh, hlook, hlift.mono (Nat.le_succ nid)⟩
      | handler hh =>
        simp only [scanAttrs]
        exact ih _ _ _ _ _ hnd hit hcall

/-- Non-callable entries survive the scan untouched. -/
theorem scanAttrs_keeps_noncallable :
    ∀ (items : List (String × AttrValue Cb)) (nid : Nat) hs attrs
      (k : String) (v : AttrValue Cb),
      (items.map Prod.fst).Nodup →
      pyLookup attrs k = some v → v.callable = false →
      (pyLookup items k = none ∨ pyLookup items k = some v) →
      pyLookup (scanAttrs nid hs attrs items).2.2 k = some v := by
  intro items
  induction items with
  | nil => intro nid hs attrs k v _ hat _ _; exact hat
  | cons pr rest ih =>
    obtain ⟨k0, w⟩ := pr
    intro nid hs attrs k v hnd hat hncall hit
    simp only [List.map_cons, List.nodup_cons] at hnd
    obtain ⟨hk0, hnd⟩ := hnd
    by_cases h0 : k0 = k
    · subst h0
      have hhead : pyLookup ((k0, w) :: rest) k0 = some w := by
        simp [pyLookup]
      rcases hit with hit | hit
      · rw [hhead] at hit
        cases hit
      · rw [hhead] at hit
        injection hit with hwv
        subst hwv
        cases w with
        | plain t =>
          simp only [scanAttrs]
          exact ih nid hs attrs k0 (AttrValue.plain t) hnd hat hncall
            (Or.inl (pyLookup_eq_none_of_not_mem_keys rest k0 hk0))
        | cb f => simp [AttrValue.callable] at hncall
        | handler hh => simp [AttrValue.callable] at hncall
    · have hit' : pyLookup rest k = none ∨ pyLookup rest k = some v := by
        rcases hit with hit | hit
        · left
          simp only [pyLookup, if_neg h0] at hit
          exact hit
        · right
          simp only [pyLookup, if_neg h0] at hit
          exact hit
      cases w with
      | plain t =>
        simp only [scanAttrs]
        exact ih _ _ _ _ _ hnd hat hncall hit'
      | cb f =>
        simp only [scanAttrs]
        refine ih _ _ _ _ _ hnd ?_ hncall hit'
        rw [pyLookup_pyRemove_ne _ _ _ (fun he => h0 he.symm)]
        exact hat
      | handler hh =>
        simp only [scanAttrs]
        refine ih _ _ _ _ _ hnd ?_ hncall hit'
        rw [pyLookup_pyRemove_ne _ _ _ (fun he => h0 he.symm)]
        exact hat

/-- Under the freshness discipline (every handler id the caller supplies is
below the allocation counter, with no duplicates), the handler map produced
by the scan has pairwise distinct handler ids — the embedding's counterpart
of Python object-id uniqueness for `EventHandler()` instances. -/
theorem scanAttrs_ids_nodup :
    ∀ (items : List (String × AttrValue Cb)) (nid : Nat) hs attrs,
      (∀ i ∈ hs.map (fun q => q.2.id), i < nid) →
      (∀ i ∈ items.filterMap (fun q => AttrValue.handlerId q.2), i < nid) →
      ((hs.map fun q => q.2.id) ++
        items.filterMap (fun q => AttrValue.handlerId q.2)).Nodup →
      (((scanAttrs nid hs attrs items).2.1.map fun q => q.2.id)).Nodup := by
  intro items
  induction items with
  | nil =>
    intro nid hs attrs _ _ hnd
    simp only [List.filterMap_nil, List.append_nil] at hnd
    simp only [scanAttrs]
    exact hnd
  | cons pr rest ih =>
    obtain ⟨k0, w⟩ := pr
    intro nid hs attrs hbh hbi hnd
    cases w with
    | plain t =>
      simp only [scanAttrs]
      simp only [List.filterMap_cons, AttrValue.handlerId] at hbi hnd
      exact ih nid hs attrs hbh hbi hnd
    | cb f =>
      simp only [scanAttrs]
      simp only [List.filterMap_cons, AttrValue.handlerId] at hbi hnd
      have hnotin : (nid : Nat) ∉ (hs.map fun q => q.2.id) ++
          rest.filterMap (fun q => AttrValue.handlerId q.2) := by
        intro hmem
        rcases List.mem_append.mp hmem with h1 | h1
        · exact absurd (hbh nid h1) (lt_irrefl nid)
        · exact absurd (hbi nid h1) (lt_irrefl nid)
      refine ih (nid + 1) (pyInsert hs k0 ⟨nid, [f]⟩) (pyRemove attrs k0)
        ?_ ?_ ?_
      · intro i hi
        rcases mem_map_pyInsert _ hs k0 ⟨nid, [f]⟩ i hi with h1 | h1
        · rw [h1]
          exact Nat.lt_succ_self nid
        · exact Nat.lt_succ_of_lt (hbh i h1)
      · intro i hi
        exact Nat.lt_succ_of_lt (hbi i hi)
      · exact pyInsert_map_append_nodup _ hs k0 ⟨nid, [f]⟩ _ hnd hnotin
    | handler hh =>
      simp only [scanAttrs]
      simp only [List.filterMap_cons, AttrValue.handlerId] at hbi hnd
      have hmid := List.nodup_middle.mp hnd
      rw [List.nodup_cons] at hmid
      obtain ⟨hhnotin, hnd'⟩ := hmid
      refine ih nid (pyInsert hs k0 hh) (pyRemove attrs k0) ?_ ?_ ?_
      · intro i hi
        rcases mem_map_pyInsert _ hs k0 hh i hi with h1 | h1
        · rw [h1]
          exact hbi hh.id (List.mem_cons_self _ _)
        · exact hbh i h1
      · intro i hi
        exact hbi i (List.mem_cons_of_mem _ hi)
      · exact pyInsert_map_append_nodup _ hs k0 hh _ hnd' hhnotin

/-- Folding `\x7bh.id: h for h in handlers.values()\x7d` never disturbs ids that
no handler carries. -/
theorem byId_fold_frame :
    ∀ (hs : List (String × EventHandler Cb))
      (acc : List (Nat × EventHandler Cb)) (i : Nat),
      (∀ q ∈ hs, q.2.id ≠ i) →
      pyLookup (hs.foldl (fun t q => pyInsert t q.2.id q.2) acc) i =
        pyLookup acc i := by
  intro hs
  induction hs with
  | nil => intro acc i _; rfl
  | cons pr rest ih =>
    intro acc i hne
    simp only [List.foldl_cons]
    rw [ih _ i (fun q hq => hne q (List.mem_cons_of_mem _ hq))]
    exact pyLookup_pyInsert_ne _ _ _ _
      (Ne.symm (hne pr (List.mem_cons_self _ _)))

/-- When handler ids are pairwise distinct, `\x7bh.id: h\x7d` maps each handler's
id back to that very handler. -/
theorem byId_lookup_self :
    ∀ (hs : List (String × EventHandler Cb))
      (acc : List (Nat × EventHandler Cb)) (k : String)
      (eh : EventHandler Cb),
      ((hs.map fun q => q.2.id)).Nodup →
      (k, eh) ∈ hs →
      pyLookup (hs.foldl (fun t q => pyInsert t q.2.id q.2) acc) eh.id =
        some eh := by
  intro hs
  induction hs with
  | nil => intro acc k eh _ hmem; cases hmem
  | cons pr rest ih =>
    intro acc k eh hnd hmem
    simp only [List.map_cons, List.nodup_cons] at hnd
    obtain ⟨hhd, hnd⟩ := hnd
    simp only [List.foldl_cons]
    rcases List.mem_cons.mp hmem with hmem | hmem
    · subst hmem
      rw [byId_fold_frame rest (pyInsert acc (k, eh).2.id (k, eh).2) eh.id
        (fun q hq he => hhd (List.mem_map.mpr ⟨q, hq, he⟩))]
      exact pyLookup_pyInsert_self acc eh.id eh
    · exact ih _ k eh hnd hmem

/-- The keys of `\x7bh.id: h\x7d` are pairwise distinct by construction. -/
theorem byId_keys_nodup :
    ∀ (hs : List (String × EventHandler Cb))
      (acc : List (Nat × EventHandler Cb)),
      (pyKeys acc).Nodup →
      (pyKeys (hs.foldl (fun t q => pyInsert t q.2.id q.2) acc)).Nodup := by
  intro hs
  induction hs with
  | nil => intro acc h; exact h
  | cons pr rest ih =>
    intro acc h
    simp only [List.foldl_cons]
    exact ih _ (pyInsert_keys_nodup acc pr.2.id pr.2 h)

/-- C3: during model resolution (`_render_model_event_handlers`, lines
223-245) every callable entry of the model's attributes dict is moved out of
the dict and into the handler map under the same key — an `EventHandler`
value as-is, a bare callable wrapped in a fresh `EventHandler` — with
attribute-derived handlers overwriting same-key entries of
`model["eventHandlers"]`; non-callable entries stay; every emitted handler
is registered in the layout's global `event_handlers` table under its id and
that id is recorded in the element state's `event_handler_ids`; and the
emitted model maps each event name to the handler's serialized descriptor
`\x7btarget: id\x7d`.  Freshness hypotheses mirror Python object-id uniqueness:
caller-supplied handler ids sit below the allocation counter and are
pairwise distinct. -/
theorem C3_callable_attributes_lifted (s : LayoutState Cb) (eid : String)
    (m : RawModel Cb) (p : LayoutState Cb × List (String × Descriptor))
    (a : Nat) (d : List (String × AttrValue Cb))
    (h : render_model_event_handlers s eid m = some p)
    (hma : m.attributes = some a) (hd : s.attrHeap.get? a = some d)
    (hkeys : (d.map Prod.fst).Nodup)
    (hhost : ∀ i ∈ (modelHandlers m).map (fun q => q.2.id),
      i < s.nextHandlerId)
    (hattrIds : ∀ i ∈ d.filterMap (fun q => AttrValue.handlerId q.2),
      i < s.nextHandlerId)
    (hids : (((modelHandlers m).map fun q => q.2.id) ++
      d.filterMap (fun q => AttrValue.handlerId q.2)).Nodup) :
    (∀ k v, pyLookup d k = some v → v.callable = true →
      ∃ eh : EventHandler Cb,
        LiftedHandler s.nextHandlerId v eh ∧
        pyLookup p.2 k = some (Descriptor.mk eh.id) ∧
        pyLookup p.1.event_handlers eh.id = some eh ∧
        ∃ d', p.1.attrHeap.get? a = some d' ∧ pyLookup d' k = none) ∧
    (∀ k v, pyLookup d k = some v → v.callable = false →
      ∃ d', p.1.attrHeap.get? a = some d' ∧ pyLookup d' k = some v) ∧
    (∀ k0 dsc, pyLookup p.2 k0 = some dsc →
      ∃ eh : EventHandler Cb, eh.id = dsc.target ∧
        pyLookup p.1.event_handlers dsc.target = some eh ∧
        ∀ st', pyLookup p.1.element_states eid = some st' →
          dsc.target ∈ st'.event_handler_ids) := by
  rcases m with ⟨mt, ma, me, mc⟩
  simp only [RawModel.attributes] at hma
  subst hma
  simp only [render_model_event_handlers, RawModel.attributes,
    Option.bind_eq_some] at h
  obtain ⟨q, hq, h⟩ := h
  rw [Option.map_eq_some'] at hq
  obtain ⟨attrs, hget, hq⟩ := hq
  cases hq
  cases h
  rw [hd] at hget
  injection hget with hget
  subst hget
  have hND := scanAttrs_ids_nodup d s.nextHandlerId
    (modelHandlers (RawModel.mk mt (some a) me mc)) d hhost hattrIds hids
  have hlt : a < s.attrHeap.length := by
    by_contra hge
    rw [List.get?_eq_getElem?, List.getElem?_eq_none (le_of_not_lt hge)]
      at hd
    cases hd
  have hset : ∀ R : List (String × AttrValue Cb),
      (s.attrHeap.set a R).get? a = some R := by
    intro R
    rw [List.get?_eq_getElem?]
    exact List.getElem?_set_eq_of_lt _ hlt
  refine ⟨?_, ?_, ?_⟩
  · intro k v hv hcall
    obtain ⟨eh, hlook, hlift⟩ := scanAttrs_handlers_key d s.nextHandlerId
      (modelHandlers (RawModel.mk mt (some a) me mc)) d k v hkeys hv hcall
    have hmemSC := pyLookup_mem _ _ _ hlook
    have hbyid := byId_lookup_self _
      ([] : List (Nat × EventHandler Cb)) k eh hND hmemSC
    refine ⟨eh, hlift, ?_, ?_, ?_⟩
    · show pyLookup (List.map _ _) k = _
      rw [pyLookup_descs, hlook]
      rfl
    · exact pyUpdate_lookup_of_mem _ _ eh.id eh
        (byId_keys_nodup _ _ List.nodup_nil) (pyLookup_mem _ _ _ hbyid)
    · exact ⟨_, hset _, scanAttrs_removes_callable d _ _ d k v hv hcall hv⟩
  · intro k v hv hncall
    exact ⟨_, hset _, scanAttrs_keeps_noncallable d s.nextHandlerId _ d k v
      hkeys hv hncall (Or.inr hv)⟩
  · intro k0 dsc hdsc
    rw [show (RawModel.mk mt (some a) me mc : RawModel Cb) =
      RawModel.mk mt (some a) me mc from rfl] at hdsc
    have hdsc' : pyLookup (((scanAttrs s.nextHandlerId
        (modelHandlers (RawModel.mk mt (some a) me mc)) d d).2.1).map
          fun q => (q.1, Descriptor.mk q.2.id)) k0 = some dsc := hdsc
    rw [pyLookup_descs, Option.map_eq_some'] at hdsc'
    obtain ⟨eh0, hl0, hdsc'⟩ := hdsc'
    subst hdsc'
    have hmemSC := pyLookup_mem _ _ _ hl0
    have hbyid := byId_lookup_self _
      ([] : List (Nat × EventHandler Cb)) k0 eh0 hND hmemSC
    refine ⟨eh0, rfl, ?_, ?_⟩
    · exact pyUpdate_lookup_of_mem _ _ eh0.id eh0
        (byId_keys_nodup _ _ List.nodup_nil) (pyLookup_mem _ _ _ hbyid)
    · intro st' hst'
      have hst2 : pyLookup (pyModify s.element_states eid
          (fun v => { v with
            event_handler_ids :=
              pyKeys ((scanAttrs s.nextHandlerId
                (modelHandlers (RawModel.mk mt (some a) me mc)) d
                  d).2.1.foldl (fun t q => pyInsert t q.2.id q.2) []) }))
          eid = some st' := hst'
      rw [pyLookup_pyModify_self, Option.map_eq_some'] at hst2
      obtain ⟨st0, hst0, hst2⟩ := hst2
      subst hst2
      exact List.mem_map.mpr ⟨(eh0.id, eh0), pyLookup_mem _ _ _ hbyid, rfl⟩

/-- Witness for C3 at the concrete button model: the bare callable under
`onClick` is wrapped in fresh handler 100, overriding the model's own
`onClick` handler (id 3); the `EventHandler` attribute under `onBlur` is
moved as-is; both are registered; the plain `color` attribute survives. -/
theorem C3_callable_attributes_lifted_witness :
    render_model_event_handlers exBtnState "B" exBtnModel = some exBtnEH ∧
    (∃ eh : EventHandler Nat,
      LiftedHandler 100 (AttrValue.cb 7) eh ∧
      pyLookup exBtnEH.2 "onClick" = some (Descriptor.mk eh.id) ∧
      pyLookup exBtnEH.1.event_handlers eh.id = some eh ∧
      ∃ d', exBtnEH.1.attrHeap.get? 0 = some d' ∧
        pyLookup d' "onClick" = none) ∧
    (∃ d', exBtnEH.1.attrHeap.get? 0 = some d' ∧
      pyLookup d' "color" = some (AttrValue.plain "red")) := by
  have hm := C3_callable_attributes_lifted exBtnState "B" exBtnModel exBtnEH
    0 exAttrs exBtnEH_eval rfl rfl (by decide) (by decide) (by decide)
    (by decide)
  exact ⟨exBtnEH_eval, hm.1 "onClick" (AttrValue.cb 7) rfl rfl,
    hm.2.1 "color" (AttrValue.plain "red") rfl rfl⟩

end Idom
